import Mathlib

/-!
Verification development for the `cli-tower-defense` repository.

The Go engine (package `engine`: `core.go`, `actions.go`) is shallowly embedded
below.  Conventions of the embedding:

* Go `int` becomes `Int`; Go `float64` becomes `ℚ` (all float constants used by
  the engine — speeds 0.5/1.0/2.0, whole-cell steps — are exact in float64
  except the `custom` speed 1.2, which only feeds the movement loop, where the
  claims are about the loop's algebra, not the rounding of 1.2).
* Go maps `map[string]int` keyed by the two fixed roles `"chatgpt"` /
  `"gemini"` become a two-field structure `RoleInt`.
* Go slices of pointers become `List`s of values; in the engine no pointer is
  ever aliased twice inside one collection, so in-place mutation through a
  pointer becomes returning an updated list (for `Attack`, damage is applied at
  the indices of the chosen targets).
* Fields of `Game` that no claim observes and that carry no game logic are
  omitted: the `Logs` slice (append-only), `LastDecisions`, the HTTP handlers,
  the `rand.Rand` (random choices become explicit parameters), the log-throttle
  bookkeeping (`lastStatePrintTime`, `lastEnemyCount`, `lastTowerCount`,
  `stateChangeCounter`, `AIDecisionInterval`, `LastAIDecision`), the cosmetic
  pause settings, `GameSpeed`, and the constant role names
  `Defender`/`Attacker`.  Wall-clock `time.Time` values become `ℚ` seconds.
-/

set_option maxHeartbeats 1000000

namespace TD

/-- `Position` from `core.go`: `{Y, X int}`. -/
structure Position where
  y : Int
  x : Int
  deriving DecidableEq, Repr

/-- `Tower` from `core.go`.  Go embeds an `Entity` struct
(`Pos`, `Char`, `Health`, `Damage`, `Cooldown`, `MaxCD`) in both `Tower` and
`Enemy`; the embedding is flattened into named fields here. -/
structure Tower where
  pos : Position
  char : Char
  health : Int
  damage : Int
  cooldown : Int
  maxCD : Int
  towerType : String
  range : Int
  cost : Int
  strategy : String
  deriving DecidableEq, Repr

/-- `Enemy` from `core.go`, with the embedded `Entity` flattened.  The unused
entity fields (`damage`, `cooldown`, `maxCD`) are kept for faithfulness. -/
structure Enemy where
  pos : Position
  char : Char
  health : Int
  damage : Int
  cooldown : Int
  maxCD : Int
  enemyType : String
  speed : ℚ
  reward : Int
  distanceMoved : ℚ
  pathIndex : Int
  behavior : String
  deriving DecidableEq, Repr

/-- A `map[string]int` keyed by the two player roles. -/
structure RoleInt where
  chatgpt : Int
  gemini : Int
  deriving DecidableEq, Repr

/-- `NewTower` from `core.go`, specialised to `params == nil` (the only call
shape reached from `placeTower`, which always passes `nil`).  An unknown
`towerType` makes the Go function panic on a `nil` map lookup; it is modelled
by an all-zero tower, unreachable through the guarded call sites. -/
def newTower (y x : Int) (towerType : String) : Tower :=
  let base : Char × Int × Int × Int × Int :=
    if towerType = "basic" then ('^', 15, 5, 5, 100)
    else if towerType = "sniper" then ('⌖', 50, 12, 15, 250)
    else if towerType = "splash" then ('⊕', 10, 3, 3, 200)
    else if towerType = "custom" then ('?', 20, 7, 8, 150)
    else (' ', 0, 0, 0, 0)
  { pos := ⟨y, x⟩
    char := base.1
    health := 100
    damage := base.2.1
    cooldown := 0
    maxCD := base.2.2.2.1
    towerType := towerType
    range := base.2.2.1
    cost := base.2.2.2.2
    strategy := "nearest" }

/-- `NewEnemy` from `core.go`, specialised to `params == nil` (every call site
in the engine passes `nil`).  An unknown `enemyType` panics in Go (nil map);
modelled by an all-zero enemy, unreachable through the guarded call sites. -/
def newEnemy (y x : Int) (enemyType : String) : Enemy :=
  let base : Char × Int × ℚ × Int :=
    if enemyType = "basic" then ('o', 100, 1, 20)
    else if enemyType = "fast" then ('>', 50, 2, 15)
    else if enemyType = "tank" then ('□', 300, 1/2, 50)
    else if enemyType = "custom" then ('?', 150, 6/5, 25)
    else (' ', 0, 0, 0)
  { pos := ⟨y, x⟩
    char := base.1
    health := base.2.1
    damage := 0
    cooldown := 0
    maxCD := 0
    enemyType := enemyType
    speed := base.2.2.1
    reward := base.2.2.2
    distanceMoved := 0
    pathIndex := 0
    behavior := "direct" }

/-- `Tower.CanAttack` from `core.go`: `t.Cooldown <= 0`. -/
def canAttack (t : Tower) : Bool := t.cooldown ≤ 0

/-- Squared Euclidean distance between two grid positions (exact, in `Int`).
`Attack` computes `math.Sqrt(dy² + dx²)` in float64; for the integer
coordinates and integer ranges of this game, `sqrt(d) ≤ r` holds in float64
iff `0 ≤ r ∧ d ≤ r²` holds exactly (the correctly-rounded square root of a
small integer is within half an ulp of the real value, and the real comparison
is never that close to the boundary), and comparisons between two such square
roots order exactly like the squared values.  The embedding therefore works
with the squared distance throughout. -/
def distSq (p q : Position) : Int :=
  (p.y - q.y) * (p.y - q.y) + (p.x - q.x) * (p.x - q.x)

/-- The in-range test of `Attack`: `distance <= float64(t.Range)`. -/
def inRangeB (t : Tower) (e : Enemy) : Bool :=
  decide (0 ≤ t.range ∧ distSq t.pos e.pos ≤ t.range * t.range)

/-- The sort key of `Attack`: the distance for the default (`nearest`)
strategy, `-Health` for `strongest`, `-Speed` for `fastest`.  Within one call
all keys come from the same branch, so replacing the float distance by the
squared distance preserves every comparison the sort makes. -/
def sortKey (t : Tower) (e : Enemy) : ℚ :=
  if t.strategy = "strongest" then -(e.health : ℚ)
  else if t.strategy = "fastest" then -e.speed
  else (distSq t.pos e.pos : ℚ)

/-- The target-collection loop of `Attack`: in-range enemies with their sort
key, tagged with their index in the enemy list (Go keeps a pointer instead of
the index). -/
def attackTargets (t : Tower) : List Enemy → Nat → List (ℚ × Nat)
  | [], _ => []
  | e :: es, i =>
      if inRangeB t e then (sortKey t e, i) :: attackTargets t es (i + 1)
      else attackTargets t es (i + 1)

/-- One outer-loop pass of the double-loop sort in `Attack`
(`if targets[i].distance > targets[j].distance { swap }` for `j > i`):
carries the current front element through the rest of the list, swapping
whenever a strictly smaller element is met.  Returns the element that ends at
position `i` together with the remaining list (in which swapped-out elements
sit where the swap left them). -/
def selectPass (c : ℚ × Nat) : List (ℚ × Nat) → (ℚ × Nat) × List (ℚ × Nat)
  | [] => (c, [])
  | y :: ys =>
      if y.1 < c.1 then
        let r := selectPass y ys
        (r.1, c :: r.2)
      else
        let r := selectPass c ys
        (r.1, y :: r.2)

/-- The full double-loop sort of `Attack`, with explicit fuel (the recursion
is on the pass results, which preserve length; `exchangeSort` supplies exactly
enough fuel). -/
def exchangeSortFuel : Nat → List (ℚ × Nat) → List (ℚ × Nat)
  | 0, l => l
  | _ + 1, [] => []
  | f + 1, c :: xs =>
      let r := selectPass c xs
      r.1 :: exchangeSortFuel f r.2

/-- The sort used by `Attack` (an exchange sort, one `selectPass` per outer
index). -/
def exchangeSort (l : List (ℚ × Nat)) : List (ℚ × Nat) :=
  exchangeSortFuel l.length l

/-- The damage application of `Attack`: Go subtracts `t.Damage` through the
stored enemy pointers; here damage is applied at the stored indices. -/
def applyDamage (hits : List Nat) (dmg : Int) : List Enemy → Nat → List Enemy
  | [], _ => []
  | e :: es, i =>
      (if hits.contains i then { e with health := e.health - dmg } else e)
        :: applyDamage hits dmg es (i + 1)

/-- Result of `Tower.Attack`: the (possibly damaged) enemy list, the indices
of the enemies that were hit (Go returns the hit pointers), and the updated
tower. -/
structure AttackResult where
  enemies : List Enemy
  hit : List Nat
  tower : Tower
  deriving DecidableEq, Repr

/-- `Tower.Attack` from `core.go`: collect in-range targets with their sort
key; if none, a no-op returning the empty hit list with the cooldown
untouched; otherwise sort with the exchange sort, damage the first
`min 3 len` targets for a `splash` tower and the first target otherwise, and
reset the cooldown to `MaxCD`. -/
def attack (t : Tower) (es : List Enemy) : AttackResult :=
  let targets := attackTargets t es 0
  match targets with
  | [] => ⟨es, [], t⟩
  | _ :: _ =>
      let sorted := exchangeSort targets
      let limit := if t.towerType = "splash" then min 3 sorted.length else 1
      let hits := (sorted.take limit).map Prod.snd
      ⟨applyDamage hits t.damage es 0, hits, { t with cooldown := t.maxCD }⟩

/-! ### The per-tick movement loop (`UpdateGameState`, `actions.go`) -/

/-- The inner `for e.DistanceMoved >= 1.0 && e.PathIndex < len(g.Path)-1`
loop of `UpdateGameState`: advance one path cell and consume one unit of
distance per iteration.  The fuel is supplied by `moveEnemy`; for any enemy
with `0 ≤ pathIndex` a fuel of `path.length` is enough for the loop to run to
its natural exit (Go would panic on a negative index anyway, and no reachable
enemy has one).  Indexing uses `getD` with the current position as default;
Go's `g.Path[e.PathIndex]` panics out of range, and the loop guard keeps the
consulted indices in range whenever `0 ≤ pathIndex`. -/
def moveLoop (path : List Position) : Nat → Enemy → Enemy
  | 0, e => e
  | f + 1, e =>
      if 1 ≤ e.distanceMoved ∧ e.pathIndex < (path.length : Int) - 1 then
        moveLoop path f
          { e with
            pathIndex := e.pathIndex + 1
            distanceMoved := e.distanceMoved - 1
            pos := path.getD (e.pathIndex + 1).toNat e.pos }
      else e

/-- Movement of one live enemy in `UpdateGameState`: add `Speed` to
`DistanceMoved`, then run the advance-while-distance-permits loop. -/
def moveEnemy (path : List Position) (e : Enemy) : Enemy :=
  moveLoop path path.length { e with distanceMoved := e.distanceMoved + e.speed }

/-- Whether a live enemy ends the tick at (or beyond) the final path index,
i.e. the `e.PathIndex >= len(g.Path)-1` leak test of `UpdateGameState`. -/
def leaksB (path : List Position) (e : Enemy) : Bool :=
  decide ((path.length : Int) - 1 ≤ (moveEnemy path e).pathIndex)

/-- The enemy phase of the engine's `UpdateGameState` (step 3 of the Go
function): skip dead enemies (they are dropped, with no penalty and no
award), move the rest, and on a leak decrement the defender's lives (flipping
`GameOver`/`Winner` when they reach 0) and drop the enemy.  Returns the
surviving enemy list and the updated `(lives, gameOver, winner)`. -/
def movePhase (path : List Position) :
    List Enemy → Int → Bool → String → List Enemy × Int × Bool × String
  | [], lives, go, w => ([], lives, go, w)
  | e :: es, lives, go, w =>
      if e.health ≤ 0 then movePhase path es lives go w
      else
        let e' := moveEnemy path e
        if (path.length : Int) - 1 ≤ e'.pathIndex then
          let lives' := lives - 1
          if lives' ≤ 0 then movePhase path es lives' true "gemini"
          else movePhase path es lives' go w
        else
          let r := movePhase path es lives go w
          (e' :: r.1, r.2)

/-! ### Path generation (`generatePath`, `core.go`) -/

/-- One vertical column of the zigzag: `y` from `top` to `bottom` when going
down, from `bottom` to `top` when going up. -/
def zigzagColumn (top bottom x : Int) (goingDown : Bool) : List Position :=
  let ys := (List.range (bottom - top + 1).toNat).map fun i => top + (i : Int)
  (if goingDown then ys else ys.reverse).map fun y => ⟨y, x⟩

/-- The `for x < rightBound` loop of `generatePath`: step right, emit a full
vertical column, toggle the direction, and skip 6 extra columns while
`x < rightBound - 10`.  Fuel bounds the iteration count (`x` increases by at
least 1 per iteration, so `rightBound - x` iterations suffice). -/
def zigzagLoop (rightBound top bottom : Int) :
    Nat → Int → Bool → List Position → List Position
  | 0, _, _, acc => acc
  | f + 1, x, goingDown, acc =>
      if x < rightBound then
        let x1 := x + 1
        let acc1 := acc ++ zigzagColumn top bottom x1 goingDown
        let x2 := if x1 < rightBound - 10 then x1 + 6 else x1
        zigzagLoop rightBound top bottom f x2 (!goingDown) acc1
      else acc

/-- `generatePath` from `core.go`.  `pathWidth` is
`int(float64(width) * 0.60)` in Go; at the only call site (`width = 80`) the
float64 product rounds to exactly 48, which `3 * width / 5` reproduces. -/
def generatePath (mapHeight width : Int) : List Position :=
  let zigzagHeight := mapHeight / 5
  let centerY := mapHeight / 2
  let pathWidth := 3 * width / 5
  let entry := (List.range 3).map fun i => (⟨centerY, 1 + (i : Int)⟩ : Position)
  let leftBound : Int := 7
  let zigzagTop := centerY - zigzagHeight / 2
  let zigzagBottom := centerY + zigzagHeight / 2
  let body :=
    zigzagLoop pathWidth zigzagTop zigzagBottom (pathWidth - leftBound).toNat
      leftBound true entry
  let lastPos := body.getLastD ⟨0, 0⟩
  body ++ (List.range 3).map fun i => (⟨lastPos.y, lastPos.x + 1 + (i : Int)⟩ : Position)

/-! ### The `Game` aggregate (`core.go`) and its operations (`actions.go`) -/

/-- The `Game` struct from `core.go`, restricted to the fields the engine's
logic reads or writes (see the header comment for the omitted bookkeeping
fields).  `Lives` is a map holding only the `"chatgpt"` key in Go, modelled as
a single counter.  Times are `ℚ` seconds. -/
structure Game where
  height : Int
  width : Int
  mapHeight : Int
  mapWidth : Int
  path : List Position
  towers : List Tower
  enemies : List Enemy
  resources : RoleInt
  lives : Int
  wave : Int
  score : RoleInt
  waveQueue : List String
  gameOver : Bool
  winner : String
  aiEnabled : Bool
  thinkingChatgpt : Bool
  thinkingGemini : Bool
  currentTurn : String
  lastActionTime : ℚ
  maxResources : Int
  maxWaves : Int
  turnTimeout : ℚ
  deriving DecidableEq, Repr

/-- `NewGame` from `core.go` (the API keys only feed the omitted HTTP
handlers).  `t0` stands for the `time.Now()` at construction. -/
def newGame (t0 : ℚ) : Game :=
  { height := 24
    width := 80
    mapHeight := 24 - 10
    mapWidth := 80
    path := generatePath (24 - 10) 80
    towers := []
    enemies := []
    resources := ⟨300, 300⟩
    lives := 20
    wave := 1
    score := ⟨0, 0⟩
    waveQueue := []
    gameOver := false
    winner := ""
    aiEnabled := true
    thinkingChatgpt := false
    thinkingGemini := false
    currentTurn := "chatgpt"
    lastActionTime := t0
    maxResources := 800
    maxWaves := 30
    turnTimeout := 45 }

/-- The `ok` part of `placeTower`'s two-value cost lookup
(`cost, ok := costs[towerType]`). -/
def towerKnown (towerType : String) : Bool :=
  towerType = "basic" || towerType = "splash" || towerType = "sniper"

/-- The tower-cost table of `placeTower` (0 for the unknown kinds the `ok`
flag rejects). -/
def towerCostD (towerType : String) : Int :=
  if towerType = "basic" then 100
  else if towerType = "splash" then 200
  else if towerType = "sniper" then 250
  else 0

/-- `placeTower` from `actions.go`: reject unknown kinds, unaffordable cost,
out-of-bounds positions, positions on a path cell, and positions on an
existing tower; on success append the new tower and deduct the cost from the
defender's resources.  (The Go function also appends a log line on an unknown
kind; logs are omitted from the model.) -/
def placeTower (g : Game) (y x : Int) (towerType : String) : Bool × Game :=
  if !towerKnown towerType then (false, g)
  else if g.resources.chatgpt < towerCostD towerType then (false, g)
  else if y < 0 ∨ g.mapHeight ≤ y ∨ x < 0 ∨ g.mapWidth ≤ x then (false, g)
  else if g.path.any fun p => p.y = y ∧ p.x = x then (false, g)
  else if g.towers.any fun t => t.pos.y = y ∧ t.pos.x = x then (false, g)
  else
    (true,
      { g with
        towers := g.towers ++ [newTower y x towerType]
        resources :=
          { g.resources with chatgpt := g.resources.chatgpt - towerCostD towerType } })

/-- The `ok` part of `spawnEnemy`'s two-value cost lookup. -/
def enemyKnown (enemyType : String) : Bool :=
  enemyType = "basic" || enemyType = "fast" || enemyType = "tank"

/-- The enemy-cost table of `spawnEnemy` (0 for the unknown kinds the `ok`
flag rejects). -/
def enemyCostD (enemyType : String) : Int :=
  if enemyType = "basic" then 20
  else if enemyType = "fast" then 30
  else if enemyType = "tank" then 50
  else 0

/-- `spawnEnemy` from `actions.go`: reject unknown kinds, unaffordable cost
and an empty path; on success append a fresh enemy at the path start
(`g.Path[0]`) and deduct the cost from the attacker's resources. -/
def spawnEnemy (g : Game) (enemyType : String) : Bool × Game :=
  if !enemyKnown enemyType then (false, g)
  else if g.resources.gemini < enemyCostD enemyType then (false, g)
  else if g.path.isEmpty then (false, g)
  else
    let p := g.path.headD ⟨0, 0⟩
    (true,
      { g with
        enemies := g.enemies ++ [newEnemy p.y p.x enemyType]
        resources :=
          { g.resources with gemini := g.resources.gemini - enemyCostD enemyType } })

/-- The wave composition of `spawnWave`: enemy index `i` of the wave picks
from a tier-dependent rotation. -/
def waveKind (wave : Int) (i : Nat) : String :=
  if 15 < wave then ["tank", "fast", "basic"].getD (i % 3) ""
  else if 5 < wave then ["fast", "basic", "tank"].getD (i % 3) ""
  else ["basic", "fast"].getD (i % 2) ""

/-- `spawnWave` from `actions.go`: cost `min (40 + 5·wave) 200`, size
`min (5 + wave) 30`; on success append the composed kinds to the wave queue
and deduct the cost. -/
def spawnWave (g : Game) : Bool × Game :=
  let waveCost := min (40 + g.wave * 5) 200
  if g.resources.gemini < waveCost then (false, g)
  else
    let num := min (5 + g.wave) 30
    (true,
      { g with
        waveQueue := g.waveQueue ++ (List.range num.toNat).map (waveKind g.wave)
        resources := { g.resources with gemini := g.resources.gemini - waveCost } })

/-- Step 1 of `UpdateGameState`: pop one queued kind per tick and spawn it at
the path start (the queue entry is consumed even when the path is empty). -/
def spawnPhase (g : Game) : Game :=
  if g.waveQueue.isEmpty then g
  else
    let etype := g.waveQueue.headD ""
    let rest := g.waveQueue.tail
    if g.path.isEmpty then { g with waveQueue := rest }
    else
      let p := g.path.headD ⟨0, 0⟩
      { g with
        waveQueue := rest
        enemies := g.enemies ++ [newEnemy p.y p.x etype] }

/-- The reward bookkeeping after one tower's attack (step 2 of
`UpdateGameState`): every hit enemy whose (post-damage) health is ≤ 0 adds its
reward to the defender's score and resources. -/
def killRewards (es : List Enemy) (hits : List Nat) (rc sc : Int) : Int × Int :=
  hits.foldl
    (fun acc i =>
      match es.get? i with
      | some e => if e.health ≤ 0 then (acc.1 + e.reward, acc.2 + e.reward) else acc
      | none => acc)
    (rc, sc)

/-- Step 2 of `UpdateGameState`: each tower in order decrements a positive
cooldown, and attacks if it can, updating the shared enemy list and crediting
the defender for kills. -/
def towersPhase :
    List Tower → List Enemy → Int → Int → List Tower × List Enemy × Int × Int
  | [], es, rc, sc => ([], es, rc, sc)
  | t :: ts, es, rc, sc =>
      let t1 := if 0 < t.cooldown then { t with cooldown := t.cooldown - 1 } else t
      if canAttack t1 then
        let r := attack t1 es
        let rs := killRewards r.enemies r.hit rc sc
        let rest := towersPhase ts r.enemies rs.1 rs.2
        (r.tower :: rest.1, rest.2)
      else
        let rest := towersPhase ts es rc sc
        (t1 :: rest.1, rest.2)

/-- Step 2 of `UpdateGameState` lifted to the `Game` state. -/
def towersStage (g : Game) : Game :=
  { g with
    towers := (towersPhase g.towers g.enemies g.resources.chatgpt g.score.chatgpt).1
    enemies := (towersPhase g.towers g.enemies g.resources.chatgpt g.score.chatgpt).2.1
    resources :=
      { g.resources with
        chatgpt := (towersPhase g.towers g.enemies g.resources.chatgpt g.score.chatgpt).2.2.1 }
    score :=
      { g.score with
        chatgpt := (towersPhase g.towers g.enemies g.resources.chatgpt g.score.chatgpt).2.2.2 } }

/-- Step 3 of `UpdateGameState` lifted to the `Game` state. -/
def moveStage (g : Game) : Game :=
  { g with
    enemies := (movePhase g.path g.enemies g.lives g.gameOver g.winner).1
    lives := (movePhase g.path g.enemies g.lives g.gameOver g.winner).2.1
    gameOver := (movePhase g.path g.enemies g.lives g.gameOver g.winner).2.2.1
    winner := (movePhase g.path g.enemies g.lives g.gameOver g.winner).2.2.2 }

/-- Step 4 of `UpdateGameState`: the defender wins once no enemies remain, the
queue is empty, the defender still has lives, and the wave counter has reached
`MaxWaves`. -/
def victoryStage (g : Game) : Game :=
  if 0 < g.lives ∧ g.enemies = [] ∧ g.waveQueue = [] then
    if g.maxWaves ≤ g.wave then { g with gameOver := true, winner := "chatgpt" }
    else g
  else g

/-- `UpdateGameState` from `actions.go`: a no-op when the game is over,
otherwise queue-spawn, tower attacks, enemy movement, and the victory check,
in that order. -/
def updateGameState (g : Game) : Game :=
  if g.gameOver then g
  else victoryStage (moveStage (towersStage (spawnPhase g)))

/-! ### The turn arbitrator (`HandleAIDecisions`, `core.go`)

`HandleAIDecisions` runs on the tick timer; each AI decision is obtained on a
separate goroutine whose final statement clears the role's `AIThinking` flag.
The embedding splits it into the synchronous part (`handleAIDecisions`, taking
the current time as a parameter) and one atomic completion step per role
(`chatgptCompletion` / `geminiCompletion`), parameterised by the decision the
provider returned (`none` = the call errored) and, for the defender, by the
random index the goroutine would draw for a fallback position. -/

/-- The synchronous body of `HandleAIDecisions` (`core.go`): no-op unless AI
is enabled; an early return while either role is thinking (only log throttling
happens there); then the inactivity-timeout check; then, for the role whose
turn it is, either the insufficient-resources short-circuit (switch turn,
refresh the action time) or the launch of a decision request (set the role's
thinking flag and refresh the action time).  The cosmetic sleeps and log lines
are omitted. -/
def handleAIDecisions (g : Game) (now : ℚ) : Game :=
  if !g.aiEnabled then g
  else if g.thinkingChatgpt || g.thinkingGemini then g
  else if g.turnTimeout < now - g.lastActionTime then
    { g with gameOver := true, winner := "none" }
  else if g.currentTurn = "chatgpt" then
    if g.resources.chatgpt < 100 then
      { g with currentTurn := "gemini", lastActionTime := now }
    else { g with thinkingChatgpt := true, lastActionTime := now }
  else if g.currentTurn = "gemini" then
    if g.resources.gemini < 20 then
      { g with currentTurn := "chatgpt", lastActionTime := now }
    else { g with thinkingGemini := true, lastActionTime := now }
  else g

/-- A parsed defender decision (`decision` map of the tower goroutine):
`action`, `tower_type` (`""` when the field is missing) and the optional
position. -/
structure TowerDecision where
  action : String
  towerType : String
  position : Option (Int × Int)
  deriving DecidableEq, Repr

/-- A parsed attacker decision (`decision` map of the enemy goroutine). -/
structure EnemyDecision where
  action : String
  enemyType : String
  deriving DecidableEq, Repr

/-- The `goodPositions` fallback table of the defender goroutine, indexed by
the random draw. -/
def goodPosition (g : Game) (pick : Nat) : Int × Int :=
  ([(2, 2), (2, g.width - 3),
    (g.mapHeight - 3, 2), (g.mapHeight - 3, g.width - 3),
    (g.mapHeight / 4, g.width / 4),
    (g.mapHeight / 4, 3 * g.width / 4),
    (3 * g.mapHeight / 4, g.width / 4),
    (3 * g.mapHeight / 4, 3 * g.width / 4)] : List (Int × Int)).getD (pick % 8) (2, 2)

/-- The in-goroutine cost table of the defender (`towerCosts` in
`HandleAIDecisions`; unknown kinds default to the basic cost). -/
def chatgptDecisionCost (towerType : String) : Int :=
  if towerType = "basic" then 100
  else if towerType = "sniper" then 250
  else if towerType = "splash" then 200
  else 100

/-- The defender's decision goroutine from `HandleAIDecisions` (`core.go`),
as one atomic step: on `place`, affordability downgrade
(`≥200 → splash`, `≥100 → basic`, else give up with the turn switched), the
requested or fallback position, a placement attempt with a basic-tower retry;
on `save`, a forced strategic placement unless five towers already stand; on
any other action a default basic placement at (2,2); on a provider error just
the turn switch.  Every path ends with the defender's thinking flag cleared
and the turn handed to the attacker. -/
def chatgptCompletion (g : Game) (outcome : Option TowerDecision) (pick : Nat) : Game :=
  match outcome with
  | none => { g with currentTurn := "gemini", thinkingChatgpt := false }
  | some d =>
      if d.action = "place" then
        let tt0 := if d.towerType = "" then "basic" else d.towerType
        let cost := chatgptDecisionCost tt0
        if g.resources.chatgpt < cost ∧ g.resources.chatgpt < 100 then
          { g with currentTurn := "gemini", thinkingChatgpt := false }
        else
          let tt1 :=
            if g.resources.chatgpt < cost then
              if 200 ≤ g.resources.chatgpt then "splash" else "basic"
            else tt0
          let yx :=
            match d.position with
            | some p => p
            | none => goodPosition g pick
          let r1 := placeTower g yx.1 yx.2 tt1
          let g2 :=
            if r1.1 then r1.2
            else if tt1 ≠ "basic" then (placeTower r1.2 yx.1 yx.2 "basic").2
            else r1.2
          { g2 with currentTurn := "gemini", thinkingChatgpt := false }
      else if d.action = "save" then
        if 5 ≤ g.towers.length then
          { g with currentTurn := "gemini", thinkingChatgpt := false }
        else
          let tt :=
            if 250 ≤ g.resources.chatgpt then "sniper"
            else if 200 ≤ g.resources.chatgpt then "splash"
            else "basic"
          let yx : Int × Int :=
            if g.towers.length = 1 then (2, g.width - 3)
            else if g.towers.length = 2 then (g.mapHeight - 3, 2)
            else if g.towers.length = 3 then (g.mapHeight - 3, g.width - 3)
            else (g.mapHeight / 2, g.width / 2)
          { (placeTower g yx.1 yx.2 tt).2 with
            currentTurn := "gemini", thinkingChatgpt := false }
      else
        { (placeTower g 2 2 "basic").2 with
          currentTurn := "gemini", thinkingChatgpt := false }

/-- The in-goroutine cost table of the attacker (`enemyCosts` in
`HandleAIDecisions`; unknown kinds default to the basic cost). -/
def geminiDecisionCost (enemyType : String) : Int :=
  if enemyType = "basic" then 20
  else if enemyType = "fast" then 30
  else if enemyType = "tank" then 50
  else 20

/-- The attacker's decision goroutine from `HandleAIDecisions` (`core.go`),
as one atomic step: on `spawn`, affordability downgrade
(`≥30 → fast`, `≥20 → basic`, else give up), then a spawn attempt; on `wave`,
`spawnWave` with a basic-enemy fallback when it fails and at least 20
resources remain; on `save`, a forced spawn unless resources are below 30; on
any other action a default basic spawn when affordable; on a provider error
just the turn switch.  Every path clears the attacker's thinking flag and
hands the turn to the defender. -/
def geminiCompletion (g : Game) (outcome : Option EnemyDecision) : Game :=
  match outcome with
  | none => { g with currentTurn := "chatgpt", thinkingGemini := false }
  | some d =>
      if d.action = "spawn" then
        let et0 := if d.enemyType = "" then "basic" else d.enemyType
        let cost := geminiDecisionCost et0
        if g.resources.gemini < cost ∧ g.resources.gemini < 20 then
          { g with currentTurn := "chatgpt", thinkingGemini := false }
        else
          let et1 :=
            if g.resources.gemini < cost then
              if 30 ≤ g.resources.gemini then "fast" else "basic"
            else et0
          { (spawnEnemy g et1).2 with
            currentTurn := "chatgpt", thinkingGemini := false }
      else if d.action = "wave" then
        let r := spawnWave g
        let g2 :=
          if r.1 then r.2
          else if 20 ≤ r.2.resources.gemini then (spawnEnemy r.2 "basic").2
          else r.2
        { g2 with currentTurn := "chatgpt", thinkingGemini := false }
      else if d.action = "save" then
        if g.resources.gemini < 30 then
          { g with currentTurn := "chatgpt", thinkingGemini := false }
        else
          let et :=
            if 50 ≤ g.resources.gemini then "tank"
            else if 30 ≤ g.resources.gemini then "fast"
            else "basic"
          { (spawnEnemy g et).2 with
            currentTurn := "chatgpt", thinkingGemini := false }
      else
        let g2 := if 20 ≤ g.resources.gemini then (spawnEnemy g "basic").2 else g
        { g2 with currentTurn := "chatgpt", thinkingGemini := false }

/-! ### The `main.go` variant of the enemy loop

`main.go` carries an older monolithic copy of the engine whose
`updateGameState` accounts for leaks differently (it awards the attacker
`Reward / 2` resources and `Reward` score).  Only its enemy-update loop
(lines 1521–1551) is needed by the claims; it is embedded separately. -/

/-- Go's `int(x)` conversion from float64: truncation toward zero. -/
def goTrunc (q : ℚ) : Int :=
  if 0 ≤ q then ⌊q⌋ else -⌊-q⌋

/-- The enemy-update loop of `main.go`'s `updateGameState`: dead enemies are
removed with the defender credited their reward; live enemies accumulate
`DistanceMoved` and jump to path cell `int(min(DistanceMoved, len-1))`
(the stored `PathIndex` field is never written); an enemy whose computed index
reaches the final path index leaks — the defender loses a life, the attacker
gains `Reward / 2` resources (Go integer division) and `Reward` score, and
the enemy is removed.  Returns the surviving enemies and the updated
`(chatgpt resources, chatgpt score, gemini resources, gemini score, lives)`. -/
def mainEnemyLoop (path : List Position) :
    List Enemy → Int → Int → Int → Int → Int →
      List Enemy × Int × Int × Int × Int × Int
  | [], rc, sc, rg, sg, lives => ([], rc, sc, rg, sg, lives)
  | e :: es, rc, sc, rg, sg, lives =>
      if e.health ≤ 0 then
        mainEnemyLoop path es (rc + e.reward) (sc + e.reward) rg sg lives
      else
        let dm := e.distanceMoved + e.speed
        let pathIndex := goTrunc (min dm (((path.length : Int) - 1 : Int) : ℚ))
        let e' :=
          { e with
            distanceMoved := dm
            pos :=
              if pathIndex < (path.length : Int) then
                path.getD pathIndex.toNat e.pos
              else e.pos }
        if (path.length : Int) - 1 ≤ pathIndex then
          mainEnemyLoop path es rc sc (rg + e.reward / 2) (sg + e.reward) (lives - 1)
        else
          let r := mainEnemyLoop path es rc sc rg sg lives
          (e' :: r.1, r.2)

/-! ### The step relation, reachable states and the inductive invariant -/

instance : Inhabited Enemy := ⟨newEnemy 0 0 "basic"⟩

instance : Inhabited Position := ⟨⟨0, 0⟩⟩

/-- Closed form of the movement loop: the number of whole path cells consumed
for a start index `idx` and an accumulated distance `dm` (proved equal to the
loop's effect in `moveLoop_closed`). -/
def moveSteps (path : List Position) (idx : Int) (dm : ℚ) : Int :=
  max 0 (min ⌊dm⌋ ((path.length : Int) - 1 - idx))

/-- One transition of the running system: a player action (the arbitrator's
goroutines and any direct caller go through `placeTower` / `spawnEnemy` /
`spawnWave`), a simulation tick, a synchronous arbitrator step at some wall
time, or the atomic completion of an outstanding decision goroutine (which
exists exactly while the role's thinking flag is set). -/
inductive Step : Game → Game → Prop
  | place (g : Game) (y x : Int) (tt : String) : Step g (placeTower g y x tt).2
  | spawn (g : Game) (et : String) : Step g (spawnEnemy g et).2
  | wave (g : Game) : Step g (spawnWave g).2
  | tick (g : Game) : Step g (updateGameState g)
  | handle (g : Game) (now : ℚ) : Step g (handleAIDecisions g now)
  | doneChatgpt (g : Game) (d : Option TowerDecision) (pick : Nat)
      (h : g.thinkingChatgpt = true) : Step g (chatgptCompletion g d pick)
  | doneGemini (g : Game) (d : Option EnemyDecision)
      (h : g.thinkingGemini = true) : Step g (geminiCompletion g d)

/-- States reachable from a freshly constructed game by any interleaving of
steps. -/
inductive Reachable : Game → Prop
  | init (t0 : ℚ) : Reachable (newGame t0)
  | step {g g' : Game} : Reachable g → Step g g' → Reachable g'

/-- The inductive invariant of the engine: both resource counters are
nonnegative, every live enemy carries a nonnegative reward (so kill payouts
never decrease resources), no tower stands on a path cell, at most one
thinking flag is set, and the path is the one generated at construction. -/
structure Inv (g : Game) : Prop where
  resC : 0 ≤ g.resources.chatgpt
  resG : 0 ≤ g.resources.gemini
  rewards : ∀ e ∈ g.enemies, 0 ≤ e.reward
  towersOffPath : ∀ t ∈ g.towers, t.pos ∉ g.path
  thinkOne : g.thinkingChatgpt = false ∨ g.thinkingGemini = false
  pathEq : g.path = generatePath (24 - 10) 80

/-- A basic enemy (reward 20) one cell short of the path end (final index 38
of the 39-cell generated path). -/
def leakEnemy : Enemy := { newEnemy 8 50 "basic" with pathIndex := 37 }

/-- A fresh game carrying `leakEnemy` — the concrete leak state of the C5
counterexample. -/
def leakDemo : Game := { newGame 0 with enemies := [leakEnemy] }

/-- A fast enemy (speed 2.0) one cell short of the path end. -/
def speedEnemy : Enemy := { newEnemy 8 50 "fast" with pathIndex := 37 }

/-- A fresh game carrying `speedEnemy` — the concrete state of the C4 speed
scenario. -/
def speedDemo : Game := { newGame 0 with enemies := [speedEnemy] }

/-! ### Supporting lemmas -/

theorem newEnemy_reward_nonneg (y x : Int) (s : String) :
    0 ≤ (newEnemy y x s).reward := by
  unfold newEnemy
  split_ifs <;> norm_num

theorem applyDamage_reward_map (hits : List Nat) (dmg : Int) :
    ∀ (es : List Enemy) (i : Nat),
      (applyDamage hits dmg es i).map Enemy.reward = es.map Enemy.reward := by
  intro es
  induction es with
  | nil => intro i; rfl
  | cons e es ih =>
      intro i
      simp only [applyDamage, List.map_cons, ih]
      split <;> rfl

theorem applyDamage_health (hits : List Nat) (dmg : Int) :
    ∀ (es : List Enemy) (i j : Nat), j < es.length →
      (applyDamage hits dmg es i).getD j default =
        (if hits.contains (i + j) then
          { es.getD j default with health := (es.getD j default).health - dmg }
         else es.getD j default) := by
  intro es
  induction es with
  | nil => intro i j h; simp at h
  | cons e es ih =>
      intro i j h
      match j with
      | 0 => simp [applyDamage]
      | j + 1 =>
          have hj : j < es.length := by simpa using h
          have := ih (i + 1) j hj
          simp only [applyDamage, List.getD_cons_succ]
          rw [this]
          have : i + 1 + j = i + (j + 1) := by omega
          rw [this]

theorem applyDamage_length (hits : List Nat) (dmg : Int) :
    ∀ (es : List Enemy) (i : Nat),
      (applyDamage hits dmg es i).length = es.length := by
  intro es
  induction es with
  | nil => intro i; rfl
  | cons e es ih => intro i; simp [applyDamage, ih]

theorem attackTargets_mem (t : Tower) :
    ∀ (es : List Enemy) (n : Nat) (a : ℚ × Nat), a ∈ attackTargets t es n →
      n ≤ a.2 ∧ a.2 - n < es.length ∧
      inRangeB t (es.getD (a.2 - n) default) = true ∧
      a.1 = sortKey t (es.getD (a.2 - n) default) := by
  intro es
  induction es with
  | nil => intro n a ha; simp [attackTargets] at ha
  | cons e es ih =>
      intro n a ha
      simp only [attackTargets] at ha
      split_ifs at ha with hr
      · rcases List.mem_cons.mp ha with ha | ha
        · subst ha
          exact ⟨le_refl n, by simp, by simpa using hr, by simp⟩
        · obtain ⟨h1, h2, h3, h4⟩ := ih (n + 1) a ha
          refine ⟨by omega, by simp only [List.length_cons]; omega, ?_, ?_⟩
          · rw [show a.2 - n = (a.2 - (n + 1)) + 1 by omega, List.getD_cons_succ]
            exact h3
          · rw [show a.2 - n = (a.2 - (n + 1)) + 1 by omega, List.getD_cons_succ]
            exact h4
      · obtain ⟨h1, h2, h3, h4⟩ := ih (n + 1) a ha
        refine ⟨by omega, by simp only [List.length_cons]; omega, ?_, ?_⟩
        · rw [show a.2 - n = (a.2 - (n + 1)) + 1 by omega, List.getD_cons_succ]
          exact h3
        · rw [show a.2 - n = (a.2 - (n + 1)) + 1 by omega, List.getD_cons_succ]
          exact h4

theorem attackTargets_length (t : Tower) :
    ∀ (es : List Enemy) (n : Nat),
      (attackTargets t es n).length = es.countP fun e => inRangeB t e := by
  intro es
  induction es with
  | nil => intro n; rfl
  | cons e es ih =>
      intro n
      simp only [attackTargets, List.countP_cons]
      split_ifs with hr
      · simp [ih, hr]
      · simp [ih, hr]

theorem attackTargets_idx_mono (t : Tower) :
    ∀ (es : List Enemy) (n : Nat),
      (attackTargets t es n).Pairwise fun a b => a.2 < b.2 := by
  intro es
  induction es with
  | nil => intro n; simp [attackTargets]
  | cons e es ih =>
      intro n
      simp only [attackTargets]
      split_ifs with hr
      · refine List.pairwise_cons.mpr ⟨?_, ih (n + 1)⟩
        intro a ha
        have := (attackTargets_mem t es (n + 1) a ha).1
        simpa using by omega
      · exact ih (n + 1)

theorem attackTargets_nil_of (t : Tower) :
    ∀ (es : List Enemy) (n : Nat), (∀ e ∈ es, inRangeB t e = false) →
      attackTargets t es n = [] := by
  intro es
  induction es with
  | nil => intro n _; rfl
  | cons e es ih =>
      intro n h
      simp only [attackTargets]
      rw [if_neg (by simp [h e (List.mem_cons_self e es)]), ih (n + 1)]
      intro e2 he2
      exact h e2 (List.mem_cons_of_mem e he2)

theorem selectPass_perm :
    ∀ (xs : List (ℚ × Nat)) (c : ℚ × Nat),
      ((selectPass c xs).1 :: (selectPass c xs).2).Perm (c :: xs) := by
  intro xs
  induction xs with
  | nil => intro c; exact List.Perm.refl _
  | cons y ys ih =>
      intro c
      simp only [selectPass]
      split_ifs with hy
      · exact (List.Perm.swap c (selectPass y ys).1 (selectPass y ys).2).trans
          (List.Perm.cons c (ih y))
      · exact ((List.Perm.swap y (selectPass c ys).1 (selectPass c ys).2).trans
          (List.Perm.cons y (ih c))).trans (List.Perm.swap c y ys)

theorem selectPass_length (c : ℚ × Nat) (xs : List (ℚ × Nat)) :
    (selectPass c xs).2.length = xs.length := by
  have := (selectPass_perm xs c).length_eq
  simpa using this

theorem selectPass_head_le :
    ∀ (xs : List (ℚ × Nat)) (c : ℚ × Nat), (selectPass c xs).1.1 ≤ c.1 := by
  intro xs
  induction xs with
  | nil => intro c; exact le_refl _
  | cons y ys ih =>
      intro c
      simp only [selectPass]
      split_ifs with hy
      · exact le_trans (ih y) (le_of_lt hy)
      · exact ih c

theorem selectPass_min :
    ∀ (xs : List (ℚ × Nat)) (c : ℚ × Nat),
      ∀ a ∈ (selectPass c xs).2, (selectPass c xs).1.1 ≤ a.1 := by
  intro xs
  induction xs with
  | nil => intro c a ha; simp [selectPass] at ha
  | cons y ys ih =>
      intro c a ha
      simp only [selectPass] at ha ⊢
      split_ifs at ha ⊢ with hy
      · rcases List.mem_cons.mp ha with ha | ha
        · subst ha
          exact le_trans (selectPass_head_le ys y) (le_of_lt hy)
        · exact ih y a ha
      · rcases List.mem_cons.mp ha with ha | ha
        · subst ha
          exact le_trans (selectPass_head_le ys c) (le_of_not_lt hy)
        · exact ih c a ha

theorem selectPass_first :
    ∀ (xs : List (ℚ × Nat)) (c : ℚ × Nat),
      (c :: xs).Pairwise (fun a b => a.2 < b.2) →
      ∀ a ∈ c :: xs, (selectPass c xs).1.1 ≤ a.1 ∧
        (a.1 = (selectPass c xs).1.1 → (selectPass c xs).1.2 ≤ a.2) := by
  intro xs
  induction xs with
  | nil =>
      intro c _ a ha
      rcases List.mem_cons.mp ha with ha | ha
      · subst ha; exact ⟨le_refl _, fun _ => le_refl _⟩
      · simp at ha
  | cons y ys ih =>
      intro c hpw a ha
      obtain ⟨hc, hpw2⟩ := List.pairwise_cons.mp hpw
      simp only [selectPass]
      split_ifs with hy
      · -- the front is swapped out for y; the result is the first minimum of y :: ys
        have hres := ih y hpw2
        rcases List.mem_cons.mp ha with ha | ha
        · subst ha
          have hlt : (selectPass y ys).1.1 < a.1 :=
            lt_of_le_of_lt (selectPass_head_le ys y) hy
          exact ⟨le_of_lt hlt, fun h => absurd h (by exact ne_of_gt hlt)⟩
        · exact hres a ha
      · -- the front survives this comparison
        have hpw3 : (c :: ys).Pairwise (fun a b => a.2 < b.2) := by
          refine List.pairwise_cons.mpr ⟨?_, (List.pairwise_cons.mp hpw2).2⟩
          intro b hb
          exact hc b (List.mem_cons_of_mem y hb)
        have hres := ih c hpw3
        rcases List.mem_cons.mp ha with ha | ha
        · subst ha; exact hres a (List.mem_cons_self _ _)
        rcases List.mem_cons.mp ha with ha | ha
        · -- a = y, the element the front was compared against
          subst ha
          have h1 : (selectPass c ys).1.1 ≤ c.1 := selectPass_head_le ys c
          refine ⟨le_trans h1 (le_of_not_lt hy), ?_⟩
          intro heq
          have hcy : c.1 ≤ a.1 := le_of_not_lt hy
          have hceq : c.1 = (selectPass c ys).1.1 := le_antisymm (heq ▸ hcy) h1
          have := (hres c (List.mem_cons_self _ _)).2 hceq
          exact le_trans this (le_of_lt (hc a (List.mem_cons_self _ _)))
        · exact hres a (List.mem_cons_of_mem c ha)

theorem exchangeSortFuel_perm :
    ∀ (f : Nat) (l : List (ℚ × Nat)), l.length ≤ f → (exchangeSortFuel f l).Perm l := by
  intro f
  induction f with
  | zero => intro l _; exact List.Perm.refl _
  | succ f ih =>
      intro l hl
      cases l with
      | nil => exact List.Perm.refl _
      | cons c xs =>
          simp only [exchangeSortFuel]
          refine (List.Perm.cons _ (ih _ ?_)).trans (selectPass_perm xs c)
          rw [selectPass_length]
          simp only [List.length_cons] at hl
          omega

theorem exchangeSortFuel_sorted :
    ∀ (f : Nat) (l : List (ℚ × Nat)), l.length ≤ f →
      ((exchangeSortFuel f l).map Prod.fst).Sorted (· ≤ ·) := by
  intro f
  induction f with
  | zero =>
      intro l hl
      rw [Nat.le_zero, List.length_eq_zero] at hl
      subst hl
      exact List.sorted_nil
  | succ f ih =>
      intro l hl
      cases l with
      | nil => exact List.sorted_nil
      | cons c xs =>
          have hlen : (selectPass c xs).2.length ≤ f := by
            rw [selectPass_length]
            simp only [List.length_cons] at hl
            omega
          simp only [exchangeSortFuel, List.map_cons]
          refine List.sorted_cons.mpr ⟨?_, ih _ hlen⟩
          intro b hb
          obtain ⟨a, ha, hab⟩ := List.mem_map.mp hb
          have ha2 : a ∈ (selectPass c xs).2 :=
            (exchangeSortFuel_perm f _ hlen).mem_iff.mp ha
          exact hab ▸ selectPass_min xs c a ha2

theorem exchangeSort_perm (l : List (ℚ × Nat)) : (exchangeSort l).Perm l :=
  exchangeSortFuel_perm l.length l (le_refl _)

theorem exchangeSort_sorted (l : List (ℚ × Nat)) :
    ((exchangeSort l).map Prod.fst).Sorted (· ≤ ·) :=
  exchangeSortFuel_sorted l.length l (le_refl _)

theorem exchangeSort_head (c : ℚ × Nat) (xs : List (ℚ × Nat)) :
    (exchangeSort (c :: xs)).head? = some (selectPass c xs).1 := rfl

theorem attack_enemies_reward_map (t : Tower) (es : List Enemy) :
    (attack t es).enemies.map Enemy.reward = es.map Enemy.reward := by
  unfold attack
  cases h : attackTargets t es 0 with
  | nil => rfl
  | cons a l => exact applyDamage_reward_map _ _ es 0

theorem attack_tower_pos (t : Tower) (es : List Enemy) :
    (attack t es).tower.pos = t.pos := by
  unfold attack
  cases h : attackTargets t es 0 with
  | nil => rfl
  | cons a l => rfl

theorem reward_nonneg_of_map_eq {es fs : List Enemy}
    (h : fs.map Enemy.reward = es.map Enemy.reward)
    (he : ∀ e ∈ es, 0 ≤ e.reward) : ∀ e ∈ fs, 0 ≤ e.reward := by
  intro e hm
  have : e.reward ∈ fs.map Enemy.reward := List.mem_map_of_mem _ hm
  rw [h] at this
  obtain ⟨e0, he0, hr⟩ := List.mem_map.mp this
  exact hr ▸ he e0 he0

theorem killRewards_mono {es : List Enemy} (he : ∀ e ∈ es, 0 ≤ e.reward) :
    ∀ (hits : List Nat) (rc sc : Int),
      rc ≤ (killRewards es hits rc sc).1 ∧ sc ≤ (killRewards es hits rc sc).2 := by
  intro hits
  induction hits with
  | nil => intro rc sc; exact ⟨le_refl _, le_refl _⟩
  | cons i hits ih =>
      intro rc sc
      simp only [killRewards, List.foldl_cons]
      cases hg : es.get? i with
      | none =>
          simpa [killRewards, hg] using ih rc sc
      | some e =>
          have hr : 0 ≤ e.reward := he e (List.get?_mem hg)
          by_cases hh : e.health ≤ 0
          · have := ih (rc + e.reward) (sc + e.reward)
            simp only [killRewards, hg, hh, if_pos] at this ⊢
            constructor
            · exact le_trans (by omega) this.1
            · exact le_trans (by omega) this.2
          · have := ih rc sc
            simp only [killRewards, hg, hh, if_neg, not_false_iff] at this ⊢
            exact this

theorem towersPhase_enemies_reward_map (ts : List Tower) :
    ∀ (es : List Enemy) (rc sc : Int),
      (towersPhase ts es rc sc).2.1.map Enemy.reward = es.map Enemy.reward := by
  induction ts with
  | nil => intro es rc sc; rfl
  | cons t ts ih =>
      intro es rc sc
      simp only [towersPhase]
      split <;> split <;>
        first
          | exact (ih _ _ _).trans (attack_enemies_reward_map _ es)
          | exact ih es rc sc

theorem towersPhase_res_mono (ts : List Tower) :
    ∀ (es : List Enemy) (rc sc : Int), (∀ e ∈ es, 0 ≤ e.reward) →
      rc ≤ (towersPhase ts es rc sc).2.2.1 := by
  induction ts with
  | nil => intro es rc sc _; exact le_refl _
  | cons t ts ih =>
      intro es rc sc he
      simp only [towersPhase]
      split <;> split <;>
        first
          | exact
              le_trans
                (killRewards_mono
                  (reward_nonneg_of_map_eq (attack_enemies_reward_map _ es) he) _ rc sc).1
                (ih _ _ _
                  (reward_nonneg_of_map_eq (attack_enemies_reward_map _ es) he))
          | exact ih es rc sc he

theorem towersPhase_pos_map (ts : List Tower) :
    ∀ (es : List Enemy) (rc sc : Int),
      (towersPhase ts es rc sc).1.map Tower.pos = ts.map Tower.pos := by
  induction ts with
  | nil => intro es rc sc; rfl
  | cons t ts ih =>
      intro es rc sc
      simp only [towersPhase]
      split <;> split <;> simp only [List.map_cons, ih, attack_tower_pos]

theorem moveLoop_fields (path : List Position) :
    ∀ (f : Nat) (e : Enemy),
      (moveLoop path f e).health = e.health ∧
      (moveLoop path f e).reward = e.reward ∧
      (moveLoop path f e).speed = e.speed := by
  intro f
  induction f with
  | zero => intro e; exact ⟨rfl, rfl, rfl⟩
  | succ f ih =>
      intro e
      simp only [moveLoop]
      split
      · exact ih _
      · exact ⟨rfl, rfl, rfl⟩

theorem moveEnemy_fields (path : List Position) (e : Enemy) :
    (moveEnemy path e).health = e.health ∧
    (moveEnemy path e).reward = e.reward ∧
    (moveEnemy path e).speed = e.speed :=
  moveLoop_fields path path.length _

theorem movePhase_spec (path : List Position) :
    ∀ (es : List Enemy) (l : Int) (go : Bool) (w : String),
      (movePhase path es l go w).1 =
        (es.filter fun e => !(e.health ≤ 0 : Bool) && !(leaksB path e)).map (moveEnemy path) ∧
      (movePhase path es l go w).2.1 =
        l - ((es.filter fun e => !(e.health ≤ 0 : Bool) && leaksB path e).length : Int) := by
  intro es
  induction es with
  | nil => intro l go w; exact ⟨rfl, by simp [movePhase]⟩
  | cons e es ih =>
      intro l go w
      by_cases hd : e.health ≤ 0
      · have hdb : (decide (e.health ≤ 0) : Bool) = true := by simpa using hd
        simp only [movePhase, if_pos hd, List.filter_cons, hdb, Bool.not_true,
          Bool.false_and, if_neg (by simp : ¬ (false = true))]
        exact ih l go w
      · have hdb : (decide (e.health ≤ 0) : Bool) = false := by simpa using hd
        by_cases hl : (path.length : Int) - 1 ≤ (moveEnemy path e).pathIndex
        · have hlk : leaksB path e = true := by simpa [leaksB] using hl
          simp only [movePhase, if_neg hd, if_pos hl, List.filter_cons, hdb, hlk,
            Bool.not_false, Bool.not_true, Bool.true_and, Bool.and_false]
          constructor
          · split
            · simpa using (ih (l - 1) true "gemini").1
            · simpa using (ih (l - 1) go w).1
          · split
            · have h2 := (ih (l - 1) true "gemini").2
              simp only [h2, List.length_cons, if_pos trivial]
              push_cast
              ring
            · have h2 := (ih (l - 1) go w).2
              simp only [h2, List.length_cons, if_pos trivial]
              push_cast
              ring
        · have hlk : leaksB path e = false := by simpa [leaksB] using hl
          simp only [movePhase, if_neg hd, if_neg hl, List.filter_cons, hdb, hlk,
            Bool.not_false, Bool.true_and, Bool.and_false, Bool.and_true,
            if_pos trivial, if_neg (by simp : ¬ (false = true))]
          refine ⟨?_, (ih l go w).2⟩
          simp only [List.map_cons, (ih l go w).1]

/-- The advance-while-distance-permits loop in closed form: starting from a
nonnegative path index with enough fuel, the loop consumes exactly
`moveSteps` whole cells — `min ⌊dm⌋ (last - idx)` clamped at 0 — advancing
the index by that amount and decreasing the accumulated distance by the same
amount (this is the "speeds greater than 1 cell/tick advance multiple cells
without skipping" behaviour). -/
theorem moveLoop_closed (path : List Position) :
    ∀ (f : Nat) (e : Enemy), 0 ≤ e.pathIndex →
      ((path.length : Int) - 1 - e.pathIndex).toNat ≤ f →
      (moveLoop path f e).pathIndex =
          e.pathIndex + moveSteps path e.pathIndex e.distanceMoved ∧
      (moveLoop path f e).distanceMoved =
          e.distanceMoved - (moveSteps path e.pathIndex e.distanceMoved : ℚ) := by
  intro f
  induction f with
  | zero =>
      intro e h0 hf
      have hs : moveSteps path e.pathIndex e.distanceMoved = 0 := by
        unfold moveSteps
        omega
      rw [hs]
      exact ⟨by simp [moveLoop], by simp [moveLoop]⟩
  | succ f ih =>
      intro e h0 hf
      by_cases hg : 1 ≤ e.distanceMoved ∧ e.pathIndex < (path.length : Int) - 1
      · obtain ⟨hdm, hidx⟩ := hg
        have hfl : 1 ≤ ⌊e.distanceMoved⌋ := Int.le_floor.mpr (by exact_mod_cast hdm)
        have hs : moveSteps path (e.pathIndex + 1) (e.distanceMoved - 1) =
            moveSteps path e.pathIndex e.distanceMoved - 1 := by
          unfold moveSteps
          rw [Int.floor_sub_one]
          omega
        have e1def : moveLoop path (f + 1) e = moveLoop path f
            { e with
              pathIndex := e.pathIndex + 1
              distanceMoved := e.distanceMoved - 1
              pos := path.getD (e.pathIndex + 1).toNat e.pos } := by
          rw [moveLoop, if_pos ⟨hdm, hidx⟩]
        obtain ⟨ih1, ih2⟩ := ih
          { e with
            pathIndex := e.pathIndex + 1
            distanceMoved := e.distanceMoved - 1
            pos := path.getD (e.pathIndex + 1).toNat e.pos }
          (by simp only; omega) (by simp only; omega)
        constructor
        · rw [e1def, ih1]
          show e.pathIndex + 1 + moveSteps path (e.pathIndex + 1) (e.distanceMoved - 1) = _
          rw [hs]
          ring
        · rw [e1def, ih2]
          show e.distanceMoved - 1 -
              (moveSteps path (e.pathIndex + 1) (e.distanceMoved - 1) : ℚ) = _
          rw [hs]
          push_cast
          ring
      · have hs : moveSteps path e.pathIndex e.distanceMoved = 0 := by
          unfold moveSteps
          rcases not_and_or.mp hg with h | h
          · have hfl : ⌊e.distanceMoved⌋ < 1 := by
              rw [Int.floor_lt]
              exact_mod_cast lt_of_not_le h
            omega
          · omega
        rw [moveLoop, if_neg hg, hs]
        exact ⟨by simp, by simp⟩

/-- `moveEnemy` in closed form. -/
theorem moveEnemy_closed (path : List Position) (e : Enemy) (h0 : 0 ≤ e.pathIndex) :
    (moveEnemy path e).pathIndex =
        e.pathIndex + moveSteps path e.pathIndex (e.distanceMoved + e.speed) ∧
    (moveEnemy path e).distanceMoved =
        e.distanceMoved + e.speed -
          (moveSteps path e.pathIndex (e.distanceMoved + e.speed) : ℚ) := by
  unfold moveEnemy
  have := moveLoop_closed path path.length
    { e with distanceMoved := e.distanceMoved + e.speed } (by simpa) (by simp only; omega)
  simpa using this

/-- The leak test in closed form. -/
theorem leaksB_iff (path : List Position) (e : Enemy) (h0 : 0 ≤ e.pathIndex) :
    leaksB path e = true ↔
      (path.length : Int) - 1 ≤
        e.pathIndex + moveSteps path e.pathIndex (e.distanceMoved + e.speed) := by
  rw [leaksB, (moveEnemy_closed path e h0).1]
  simp

/-- An alive enemy that ends at the final path index is dropped by the enemy
phase with exactly one life lost. -/
theorem movePhase_single_leak (path : List Position) (e : Enemy) (l : Int)
    (go : Bool) (w : String) (hh : ¬ e.health ≤ 0) (hl : leaksB path e = true) :
    (movePhase path [e] l go w).1 = [] ∧ (movePhase path [e] l go w).2.1 = l - 1 := by
  have hl2 : (path.length : Int) - 1 ≤ (moveEnemy path e).pathIndex := by
    simpa [leaksB] using hl
  simp only [movePhase, if_neg hh, if_pos hl2]
  split_ifs <;> exact ⟨rfl, rfl⟩

/-! ### Preservation of the invariant -/

theorem placeTower_inv (g : Game) (y x : Int) (tt : String) (h : Inv g) :
    Inv (placeTower g y x tt).2 := by
  obtain ⟨h1, h2, h3, h4, h5, h6⟩ := h
  unfold placeTower
  split_ifs with hk hr hb hp htw
  · exact ⟨h1, h2, h3, h4, h5, h6⟩
  · exact ⟨h1, h2, h3, h4, h5, h6⟩
  · exact ⟨h1, h2, h3, h4, h5, h6⟩
  · exact ⟨h1, h2, h3, h4, h5, h6⟩
  · exact ⟨h1, h2, h3, h4, h5, h6⟩
  · refine ⟨by simp only; omega, h2, h3, ?_, h5, h6⟩
    intro t ht
    simp only [List.mem_append, List.mem_singleton] at ht
    rcases ht with ht | ht
    · exact h4 t ht
    · subst ht
      intro hmem
      have : g.path.any (fun p => p.y = y ∧ p.x = x) = true := by
        refine List.any_eq_true.mpr ⟨⟨y, x⟩, ?_, by simp⟩
        simpa [newTower] using hmem
      exact hp this

theorem placeTower_reject (g : Game) (y x : Int) (tt : String)
    (h : (placeTower g y x tt).1 = false) : (placeTower g y x tt).2 = g := by
  unfold placeTower at h ⊢
  split_ifs at h ⊢
  all_goals first | rfl | simp at h

theorem spawnEnemy_inv (g : Game) (et : String) (h : Inv g) :
    Inv (spawnEnemy g et).2 := by
  obtain ⟨h1, h2, h3, h4, h5, h6⟩ := h
  simp only [spawnEnemy]
  split_ifs with hk hr hp
  · exact ⟨h1, h2, h3, h4, h5, h6⟩
  · exact ⟨h1, h2, h3, h4, h5, h6⟩
  · exact ⟨h1, h2, h3, h4, h5, h6⟩
  · refine ⟨h1, by simp only; omega, ?_, h4, h5, h6⟩
    intro e he
    simp only [List.mem_append, List.mem_singleton] at he
    rcases he with he | he
    · exact h3 e he
    · exact he ▸ newEnemy_reward_nonneg _ _ _

theorem spawnEnemy_reject (g : Game) (et : String)
    (h : (spawnEnemy g et).1 = false) : (spawnEnemy g et).2 = g := by
  simp only [spawnEnemy] at h ⊢
  split_ifs at h ⊢
  all_goals first | rfl | simp at h

theorem spawnWave_inv (g : Game) (h : Inv g) : Inv (spawnWave g).2 := by
  obtain ⟨h1, h2, h3, h4, h5, h6⟩ := h
  simp only [spawnWave]
  split_ifs with hr
  · exact ⟨h1, h2, h3, h4, h5, h6⟩
  · refine ⟨h1, by simp only; omega, h3, h4, h5, h6⟩

theorem spawnWave_reject (g : Game)
    (h : (spawnWave g).1 = false) : (spawnWave g).2 = g := by
  simp only [spawnWave] at h ⊢
  split_ifs at h ⊢
  all_goals first | rfl | simp at h

theorem updateGameState_inv (g : Game) (h : Inv g) : Inv (updateGameState g) := by
  obtain ⟨h1, h2, h3, h4, h5, h6⟩ := h
  unfold updateGameState
  split_ifs with hgo
  · exact ⟨h1, h2, h3, h4, h5, h6⟩
  · -- the spawn phase
    have hs : Inv (spawnPhase g) := by
      simp only [spawnPhase]
      split_ifs with hq hp
      · exact ⟨h1, h2, h3, h4, h5, h6⟩
      · exact ⟨h1, h2, h3, h4, h5, h6⟩
      · refine ⟨h1, h2, ?_, h4, h5, h6⟩
        intro e he
        simp only [List.mem_append, List.mem_singleton] at he
        rcases he with he | he
        · exact h3 e he
        · exact he ▸ newEnemy_reward_nonneg _ _ _
    obtain ⟨s1, s2, s3, s4, s5, s6⟩ := hs
    -- the tower phase
    have ht : Inv (towersStage (spawnPhase g)) := by
      unfold towersStage
      refine ⟨?_, s2, ?_, ?_, s5, s6⟩
      · exact le_trans s1 (towersPhase_res_mono _ _ _ _ s3)
      · exact reward_nonneg_of_map_eq (towersPhase_enemies_reward_map _ _ _ _) s3
      · intro t ht
        have : t.pos ∈ (towersPhase (spawnPhase g).towers (spawnPhase g).enemies
            (spawnPhase g).resources.chatgpt (spawnPhase g).score.chatgpt).1.map Tower.pos :=
          List.mem_map_of_mem _ ht
        rw [towersPhase_pos_map] at this
        obtain ⟨t0, ht0, hpos⟩ := List.mem_map.mp this
        exact hpos ▸ s4 t0 ht0
    obtain ⟨t1, t2, t3, t4, t5, t6⟩ := ht
    -- the movement phase
    have hm : Inv (moveStage (towersStage (spawnPhase g))) := by
      refine ⟨t1, t2, ?_, t4, t5, t6⟩
      intro e he
      simp only [moveStage] at he
      rw [(movePhase_spec _ _ _ _ _).1] at he
      obtain ⟨e0, he0, hme⟩ := List.mem_map.mp he
      have := (moveEnemy_fields (towersStage (spawnPhase g)).path e0).2.1
      rw [hme] at this
      exact this ▸ t3 e0 (List.mem_of_mem_filter he0)
    obtain ⟨m1, m2, m3, m4, m5, m6⟩ := hm
    -- the victory check
    unfold victoryStage
    split_ifs <;> exact ⟨m1, m2, m3, m4, m5, m6⟩

theorem handleAIDecisions_inv (g : Game) (now : ℚ) (h : Inv g) :
    Inv (handleAIDecisions g now) := by
  obtain ⟨h1, h2, h3, h4, h5, h6⟩ := h
  unfold handleAIDecisions
  split_ifs with ha hthink hto ht1 hr1 ht2 hr2
  · exact ⟨h1, h2, h3, h4, h5, h6⟩
  · exact ⟨h1, h2, h3, h4, h5, h6⟩
  · exact ⟨h1, h2, h3, h4, h5, h6⟩
  · exact ⟨h1, h2, h3, h4, h5, h6⟩
  · -- launch the defender request: the attacker flag is known to be clear
    refine ⟨h1, h2, h3, h4, Or.inr ?_, h6⟩
    simpa using (Bool.or_eq_false_iff.mp (by simpa using hthink)).2
  · exact ⟨h1, h2, h3, h4, h5, h6⟩
  · refine ⟨h1, h2, h3, h4, Or.inl ?_, h6⟩
    simpa using (Bool.or_eq_false_iff.mp (by simpa using hthink)).1
  · exact ⟨h1, h2, h3, h4, h5, h6⟩

/-- `Inv` ignores the turn, clock and flag fields, so clearing the defender's
flag and switching the turn preserves it. -/
theorem inv_turnC (g : Game) (h : Inv g) :
    Inv { g with currentTurn := "gemini", thinkingChatgpt := false } := by
  obtain ⟨h1, h2, h3, h4, h5, h6⟩ := h
  exact ⟨h1, h2, h3, h4, Or.inl rfl, h6⟩

theorem inv_turnG (g : Game) (h : Inv g) :
    Inv { g with currentTurn := "chatgpt", thinkingGemini := false } := by
  obtain ⟨h1, h2, h3, h4, h5, h6⟩ := h
  exact ⟨h1, h2, h3, h4, Or.inr rfl, h6⟩

theorem chatgptCompletion_inv (g : Game) (d : Option TowerDecision) (pick : Nat)
    (h : Inv g) : Inv (chatgptCompletion g d pick) := by
  cases d with
  | none => exact inv_turnC g h
  | some dec =>
      simp only [chatgptCompletion]
      split_ifs <;>
        first
          | exact inv_turnC _ h
          | exact inv_turnC _ (placeTower_inv _ _ _ _ h)
          | exact inv_turnC _ (placeTower_inv _ _ _ _ (placeTower_inv _ _ _ _ h))

theorem geminiCompletion_inv (g : Game) (d : Option EnemyDecision)
    (h : Inv g) : Inv (geminiCompletion g d) := by
  cases d with
  | none => exact inv_turnG g h
  | some dec =>
      simp only [geminiCompletion]
      split_ifs <;>
        first
          | exact inv_turnG _ h
          | exact inv_turnG _ (spawnEnemy_inv _ _ h)
          | exact inv_turnG _ (spawnWave_inv _ h)
          | exact inv_turnG _ (spawnEnemy_inv _ _ (spawnWave_inv _ h))

theorem inv_step {g g' : Game} (s : Step g g') (h : Inv g) : Inv g' := by
  cases s with
  | place y x tt => exact placeTower_inv g y x tt h
  | spawn et => exact spawnEnemy_inv g et h
  | wave => exact spawnWave_inv g h
  | tick => exact updateGameState_inv g h
  | handle now => exact handleAIDecisions_inv g now h
  | doneChatgpt d pick _ => exact chatgptCompletion_inv g d pick h
  | doneGemini d _ => exact geminiCompletion_inv g d h

theorem newGame_inv (t0 : ℚ) : Inv (newGame t0) := by
  refine ⟨by norm_num [newGame], by norm_num [newGame], ?_, ?_, Or.inl rfl, rfl⟩
  · intro e he; simp [newGame] at he
  · intro t ht; simp [newGame] at ht

theorem reachable_inv {g : Game} (h : Reachable g) : Inv g := by
  induction h with
  | init t0 => exact newGame_inv t0
  | step _ s ih => exact inv_step s ih

/-! ### Frame lemmas for the tick stages -/

theorem spawnPhase_frame (g : Game) :
    (spawnPhase g).path = g.path ∧ (spawnPhase g).towers = g.towers ∧
    (spawnPhase g).resources = g.resources ∧ (spawnPhase g).lives = g.lives ∧
    (spawnPhase g).gameOver = g.gameOver ∧ (spawnPhase g).winner = g.winner ∧
    (spawnPhase g).score = g.score := by
  simp only [spawnPhase]
  split_ifs <;> simp

theorem towersStage_frame (g : Game) :
    (towersStage g).path = g.path ∧ (towersStage g).lives = g.lives ∧
    (towersStage g).gameOver = g.gameOver ∧ (towersStage g).winner = g.winner ∧
    (towersStage g).resources.gemini = g.resources.gemini ∧
    (towersStage g).score.gemini = g.score.gemini ∧
    (towersStage g).waveQueue = g.waveQueue :=
  ⟨rfl, rfl, rfl, rfl, rfl, rfl, rfl⟩

theorem moveStage_frame (g : Game) :
    (moveStage g).path = g.path ∧ (moveStage g).resources = g.resources ∧
    (moveStage g).score = g.score ∧ (moveStage g).towers = g.towers :=
  ⟨rfl, rfl, rfl, rfl⟩

theorem victoryStage_frame (g : Game) :
    (victoryStage g).enemies = g.enemies ∧ (victoryStage g).lives = g.lives ∧
    (victoryStage g).resources = g.resources ∧ (victoryStage g).score = g.score := by
  unfold victoryStage
  split_ifs <;> exact ⟨rfl, rfl, rfl, rfl⟩

theorem placeTower_flags (g : Game) (y x : Int) (tt : String) :
    (placeTower g y x tt).2.thinkingChatgpt = g.thinkingChatgpt ∧
    (placeTower g y x tt).2.thinkingGemini = g.thinkingGemini := by
  unfold placeTower
  split_ifs <;> exact ⟨rfl, rfl⟩

theorem spawnEnemy_flags (g : Game) (et : String) :
    (spawnEnemy g et).2.thinkingChatgpt = g.thinkingChatgpt ∧
    (spawnEnemy g et).2.thinkingGemini = g.thinkingGemini := by
  simp only [spawnEnemy]
  split_ifs <;> exact ⟨rfl, rfl⟩

theorem spawnWave_flags (g : Game) :
    (spawnWave g).2.thinkingChatgpt = g.thinkingChatgpt ∧
    (spawnWave g).2.thinkingGemini = g.thinkingGemini := by
  simp only [spawnWave]
  split_ifs <;> exact ⟨rfl, rfl⟩

/-! ### Claim theorems -/

/-- C10: for every game state and position, `placeTower` with kind `"custom"`
returns `false` and leaves the whole state (in particular the tower collection
and both resource counters) unchanged, even though `NewTower` defines a fully
specified `custom` kind with cost 150 — `placeTower`'s cost table only knows
`basic`, `splash` and `sniper`, so a custom tower can never be placed through
the public placement operation. -/
theorem custom_tower_unplaceable_spec :
    (∀ (g : Game) (y x : Int), placeTower g y x "custom" = (false, g)) ∧
    (newTower 0 0 "custom").cost = 150 ∧ (newTower 0 0 "custom").damage = 20 ∧
    (newTower 0 0 "custom").range = 7 ∧ (newTower 0 0 "custom").maxCD = 8 := by
  exact ⟨fun g y x => rfl, rfl, rfl, rfl, rfl⟩

/-- C6 (corrected): the turn-arbitration step checks the thinking flags
*before* the inactivity timeout, so while either decision request is
outstanding the step returns with the state unchanged — it does not force
game over, no matter how long past `TurnTimeout` the clock is; only when both
flags are clear does a step at a time more than `TurnTimeout` past the last
recorded action force `GameOver = true`, `Winner = "none"`. -/
theorem turn_timeout_spec :
    (∀ (g : Game) (now : ℚ), g.aiEnabled = true →
      (g.thinkingChatgpt = true ∨ g.thinkingGemini = true) →
      handleAIDecisions g now = g) ∧
    (∀ (g : Game) (now : ℚ), g.aiEnabled = true →
      g.thinkingChatgpt = false → g.thinkingGemini = false →
      g.turnTimeout < now - g.lastActionTime →
      handleAIDecisions g now = { g with gameOver := true, winner := "none" }) := by
  constructor
  · intro g now ha ht
    unfold handleAIDecisions
    rw [if_neg (by simp [ha]), if_pos (by rcases ht with ht | ht <;> simp [ht])]
  · intro g now ha h1 h2 hto
    unfold handleAIDecisions
    rw [if_neg (by simp [ha]), if_neg (by simp [h1, h2]), if_pos hto]

/-- C6 witness: on a fresh game (both flags clear) observed 46 seconds after
construction, the 45-second timeout fires. -/
theorem turn_timeout_spec_witness :
    handleAIDecisions (newGame 0) 46 =
      { newGame 0 with gameOver := true, winner := "none" } :=
  turn_timeout_spec.2 (newGame 0) 46 rfl rfl rfl (by norm_num [newGame])

/-- C6 counterexample: a game whose defender request is outstanding
(`thinkingChatgpt = true`) and whose last action is 46 seconds old (past the
45-second `TurnTimeout`) is returned unchanged by the arbitration step — in
particular `GameOver` stays `false` and no `Winner = "none"` is forced,
contradicting the claim that the timeout also fires while a decision request
is outstanding. -/
theorem timeout_while_thinking_cex :
    ({ newGame 0 with thinkingChatgpt := true } : Game).turnTimeout = 45 ∧
    ({ newGame 0 with thinkingChatgpt := true } : Game).lastActionTime = 0 ∧
    (45 : ℚ) < 46 - 0 ∧
    handleAIDecisions { newGame 0 with thinkingChatgpt := true } 46 =
      { newGame 0 with thinkingChatgpt := true } ∧
    (handleAIDecisions { newGame 0 with thinkingChatgpt := true } 46).gameOver = false := by
  refine ⟨rfl, rfl, by norm_num, ?_, ?_⟩ <;> rfl

/-- C1: in every state reachable from a fresh game by any interleaving of the
player operations, ticks, arbitration steps and decision resolutions, both
resource counters are nonnegative; every rejected `placeTower`, `spawnEnemy`
or `spawnWave` call (unknown kind, unaffordable cost, invalid position, empty
path) returns `false` with the state — tower collection, enemy collection,
wave queue and both resource counters — exactly unchanged; and in particular
`spawnEnemy "tank"` (cost 50) with attacker resources 25 returns `false` and
changes nothing. -/
theorem resources_invariant_spec :
    (∀ g : Game, Reachable g → 0 ≤ g.resources.chatgpt ∧ 0 ≤ g.resources.gemini) ∧
    (∀ (g : Game) (y x : Int) (tt : String),
      (placeTower g y x tt).1 = false → (placeTower g y x tt).2 = g) ∧
    (∀ (g : Game) (et : String),
      (spawnEnemy g et).1 = false → (spawnEnemy g et).2 = g) ∧
    (∀ g : Game, (spawnWave g).1 = false → (spawnWave g).2 = g) ∧
    spawnEnemy { newGame 0 with resources := ⟨300, 25⟩ } "tank" =
      (false, { newGame 0 with resources := ⟨300, 25⟩ }) := by
  refine ⟨fun g hg => ⟨(reachable_inv hg).resC, (reachable_inv hg).resG⟩,
    placeTower_reject, spawnEnemy_reject, spawnWave_reject, rfl⟩

/-- C1 witness: the invariant instantiated at the fresh game itself. -/
theorem resources_invariant_spec_witness :
    0 ≤ (newGame 0).resources.chatgpt ∧ 0 ≤ (newGame 0).resources.gemini :=
  resources_invariant_spec.1 (newGame 0) (Reachable.init 0)

/-- C7: in every reachable state at most one of the two thinking flags is
set; a step of the arbitrator raises a role's flag only when both flags were
clear and the turn belonged to that role, and each decision completion clears
its own flag and leaves the other untouched. -/
theorem thinking_mutual_exclusion_spec :
    (∀ g : Game, Reachable g →
      g.thinkingChatgpt = false ∨ g.thinkingGemini = false) ∧
    (∀ (g : Game) (now : ℚ),
      (handleAIDecisions g now).thinkingChatgpt = true →
        g.thinkingChatgpt = true ∨
          (g.thinkingGemini = false ∧ g.currentTurn = "chatgpt")) ∧
    (∀ (g : Game) (now : ℚ),
      (handleAIDecisions g now).thinkingGemini = true →
        g.thinkingGemini = true ∨
          (g.thinkingChatgpt = false ∧ g.currentTurn = "gemini")) ∧
    (∀ (g : Game) (d : Option TowerDecision) (pick : Nat),
      (chatgptCompletion g d pick).thinkingChatgpt = false ∧
      (chatgptCompletion g d pick).thinkingGemini = g.thinkingGemini) ∧
    (∀ (g : Game) (d : Option EnemyDecision),
      (geminiCompletion g d).thinkingGemini = false ∧
      (geminiCompletion g d).thinkingChatgpt = g.thinkingChatgpt) := by
  refine ⟨fun g hg => (reachable_inv hg).thinkOne, ?_, ?_, ?_, ?_⟩
  · intro g now h
    unfold handleAIDecisions at h
    split_ifs at h with ha hth hto ht1 hr1 ht2 hr2
    all_goals first
      | exact Or.inl h
      | (left; exact h)
      | (right
         constructor
         · simpa using (Bool.or_eq_false_iff.mp (by simpa using hth)).2
         · assumption)
  · intro g now h
    unfold handleAIDecisions at h
    split_ifs at h with ha hth hto ht1 hr1 ht2 hr2
    all_goals first
      | exact Or.inl h
      | (right
         constructor
         · simpa using (Bool.or_eq_false_iff.mp (by simpa using hth)).1
         · assumption)
  · intro g d pick
    cases d with
    | none => exact ⟨rfl, rfl⟩
    | some dec =>
        simp only [chatgptCompletion]
        split_ifs <;>
          refine ⟨rfl, ?_⟩ <;>
          first
            | rfl
            | exact (placeTower_flags _ _ _ _).2
            | exact ((placeTower_flags _ _ _ _).2).trans (placeTower_flags _ _ _ _).2
  · intro g d
    cases d with
    | none => exact ⟨rfl, rfl⟩
    | some dec =>
        simp only [geminiCompletion]
        split_ifs <;>
          refine ⟨rfl, ?_⟩ <;>
          first
            | rfl
            | exact (spawnEnemy_flags _ _).1
            | exact (spawnWave_flags _).1
            | exact ((spawnEnemy_flags _ _).1).trans (spawnWave_flags _).1

/-- C7 witness: mutual exclusion instantiated at the fresh game. -/
theorem thinking_mutual_exclusion_spec_witness :
    (newGame 0).thinkingChatgpt = false ∨ (newGame 0).thinkingGemini = false :=
  thinking_mutual_exclusion_spec.1 (newGame 0) (Reachable.init 0)

/-- C9: in every reachable state no tower occupies a path cell (the
placement policy is strict coincidence); `placeTower` returns `false` for any
position coinciding with a path cell or an existing tower's cell or lying out
of bounds; and the path of every reachable state is the one generated at
construction (it is never mutated). -/
theorem towers_off_path_spec :
    (∀ g : Game, Reachable g → ∀ t ∈ g.towers, t.pos ∉ g.path) ∧
    (∀ (g : Game) (y x : Int) (tt : String),
      ((∃ p ∈ g.path, p.y = y ∧ p.x = x) ∨
       (∃ t ∈ g.towers, t.pos.y = y ∧ t.pos.x = x) ∨
       y < 0 ∨ g.mapHeight ≤ y ∨ x < 0 ∨ g.mapWidth ≤ x) →
      (placeTower g y x tt).1 = false) ∧
    (∀ g : Game, Reachable g → g.path = generatePath (24 - 10) 80) := by
  refine ⟨fun g hg => (reachable_inv hg).towersOffPath, ?_,
    fun g hg => (reachable_inv hg).pathEq⟩
  intro g y x tt hbad
  unfold placeTower
  split_ifs with hk hr hb hp ht
  · rfl
  · rfl
  · rfl
  · rfl
  · rfl
  · exfalso
    rcases hbad with ⟨p, hp1, hp2, hp3⟩ | ⟨t, ht1, ht2, ht3⟩ | hy | hy | hx | hx
    · exact hp (List.any_eq_true.mpr ⟨p, hp1, by simp [hp2, hp3]⟩)
    · exact ht (List.any_eq_true.mpr ⟨t, ht1, by simp [ht2, ht3]⟩)
    all_goals exact hb (by tauto)

/-- C9 witness: the invariant at the fresh game, and a placement rejected for
landing on the path cell (7,1). -/
theorem towers_off_path_spec_witness :
    (∀ t ∈ (newGame 0).towers, t.pos ∉ (newGame 0).path) ∧
    (placeTower (newGame 0) 7 1 "basic").1 = false :=
  ⟨towers_off_path_spec.1 (newGame 0) (Reachable.init 0),
    towers_off_path_spec.2.1 (newGame 0) 7 1 "basic" (Or.inl (by decide))⟩

/-- A non-final tick is the composition of its four stages. -/
theorem updateGameState_eq (g : Game) (hgo : g.gameOver = false) :
    updateGameState g = victoryStage (moveStage (towersStage (spawnPhase g))) := by
  unfold updateGameState
  rw [if_neg (by simp [hgo])]

/-- The engine's tick never touches the attacker's resources or score: queue
spawning and movement change neither counter, and tower kills credit only the
defender. -/
theorem updateGameState_gemini (g : Game) (hgo : g.gameOver = false) :
    (updateGameState g).resources.gemini = g.resources.gemini ∧
    (updateGameState g).score.gemini = g.score.gemini := by
  rw [updateGameState_eq g hgo]
  have hres : (moveStage (towersStage (spawnPhase g))).resources =
      (towersStage (spawnPhase g)).resources := rfl
  have hsc : (moveStage (towersStage (spawnPhase g))).score =
      (towersStage (spawnPhase g)).score := rfl
  constructor
  · rw [(victoryStage_frame _).2.2.1, hres, (towersStage_frame _).2.2.2.2.1,
      (spawnPhase_frame g).2.2.1]
  · rw [(victoryStage_frame _).2.2.2, hsc, (towersStage_frame _).2.2.2.2.2.1,
      (spawnPhase_frame g).2.2.2.2.2.2]

/-- C8: within one tick the tower phase (cooldown decrement and attack
resolution) is applied before enemy movement: the tick's surviving enemy list
is the movement of exactly those post-attack enemies that are alive
(health > 0) and do not leak, the lives counter drops by the number of
post-attack *alive* leakers only (a dead enemy never moves, never leaks and
costs no life), the attacker's resources are untouched by the whole tick (so
a killed enemy yields no attacker reward), and every enemy stored after the
tick has positive health. -/
theorem tick_ordering_spec :
    ∀ g : Game, g.gameOver = false →
      (updateGameState g).enemies =
        ((towersStage (spawnPhase g)).enemies.filter
            fun e => !(e.health ≤ 0 : Bool) && !(leaksB g.path e)).map (moveEnemy g.path) ∧
      (updateGameState g).lives =
        (towersStage (spawnPhase g)).lives -
          (((towersStage (spawnPhase g)).enemies.filter
              fun e => !(e.health ≤ 0 : Bool) && leaksB g.path e).length : Int) ∧
      (updateGameState g).resources.gemini = g.resources.gemini ∧
      (∀ e ∈ (updateGameState g).enemies, 0 < e.health) := by
  intro g hgo
  have hpath : (towersStage (spawnPhase g)).path = g.path := (spawnPhase_frame g).1
  have hme : (updateGameState g).enemies =
      ((towersStage (spawnPhase g)).enemies.filter
          fun e => !(e.health ≤ 0 : Bool) && !(leaksB g.path e)).map (moveEnemy g.path) := by
    rw [updateGameState_eq g hgo, (victoryStage_frame _).1]
    show (movePhase _ _ _ _ _).1 = _
    rw [(movePhase_spec _ _ _ _ _).1, hpath]
  refine ⟨hme, ?_, (updateGameState_gemini g hgo).1, ?_⟩
  · rw [updateGameState_eq g hgo, (victoryStage_frame _).2.1]
    show (movePhase _ _ _ _ _).2.1 = _
    rw [(movePhase_spec _ _ _ _ _).2, hpath]
  · intro e he
    rw [hme] at he
    obtain ⟨e0, he0, hmeq⟩ := List.mem_map.mp he
    have hp0 := List.of_mem_filter he0
    simp only [Bool.and_eq_true, Bool.not_eq_eq_eq_not, Bool.not_true,
      decide_eq_false_iff_not] at hp0
    subst hmeq
    rw [(moveEnemy_fields g.path e0).1]
    omega

/-- C8 witness: the ordering facts instantiated at the fresh game. -/
theorem tick_ordering_spec_witness :
    (updateGameState (newGame 0)).enemies =
      ((towersStage (spawnPhase (newGame 0))).enemies.filter
          fun e => !(e.health ≤ 0 : Bool) &&
            !(leaksB (newGame 0).path e)).map (moveEnemy (newGame 0).path) ∧
    (updateGameState (newGame 0)).lives =
      (towersStage (spawnPhase (newGame 0))).lives -
        (((towersStage (spawnPhase (newGame 0))).enemies.filter
            fun e => !(e.health ≤ 0 : Bool) && leaksB (newGame 0).path e).length : Int) ∧
    (updateGameState (newGame 0)).resources.gemini = (newGame 0).resources.gemini ∧
    (∀ e ∈ (updateGameState (newGame 0)).enemies, 0 < e.health) :=
  tick_ordering_spec (newGame 0) rfl

/-- C5 (corrected): when an enemy leaks during an engine tick
(`engine/actions.go` `UpdateGameState`) the defender loses a life and the
enemy is removed, but the attacker is awarded *nothing*: the whole tick
leaves the attacker's resources and score unchanged.  The monolithic
`main.go` variant of the loop instead awards the attacker
`Reward / 2` resources (Go integer division — strictly below half for odd
rewards) and the full `Reward` as score. -/
theorem leak_reward_spec :
    (∀ g : Game, g.gameOver = false →
      (updateGameState g).resources.gemini = g.resources.gemini ∧
      (updateGameState g).score.gemini = g.score.gemini) ∧
    (∀ (path : List Position) (e : Enemy) (l : Int) (go : Bool) (w : String),
      ¬ e.health ≤ 0 → leaksB path e = true →
      (movePhase path [e] l go w).1 = [] ∧ (movePhase path [e] l go w).2.1 = l - 1) ∧
    (∀ (path : List Position) (e : Enemy) (rc sc rg sg l : Int),
      ¬ e.health ≤ 0 →
      (path.length : Int) - 1 ≤
        goTrunc (min (e.distanceMoved + e.speed) (((path.length : Int) - 1 : Int) : ℚ)) →
      mainEnemyLoop path [e] rc sc rg sg l =
        ([], rc, sc, rg + e.reward / 2, sg + e.reward, l - 1)) := by
  refine ⟨updateGameState_gemini, ?_, ?_⟩
  · intro path e l go w hh hl
    exact movePhase_single_leak path e l go w hh hl
  · intro path e rc sc rg sg l hh hreach
    simp only [mainEnemyLoop, if_neg hh, if_pos hreach]

/-- The leak test holds for the basic demo enemy: its accumulated distance
0 + 1 buys the single remaining cell, reaching the final index 38. -/
theorem leakEnemy_leaks : leaksB leakDemo.path leakEnemy = true := by
  rw [leaksB_iff _ _ (by norm_num [leakEnemy, newEnemy])]
  have hd : leakEnemy.distanceMoved = 0 := rfl
  have hsp : leakEnemy.speed = 1 := rfl
  have hpi : leakEnemy.pathIndex = 37 := rfl
  have hlen : leakDemo.path.length = 39 := by decide
  unfold moveSteps
  rw [hd, hsp, hpi, hlen]
  norm_num

/-- The first two tick stages are the identity on `leakDemo` (empty wave
queue, no towers). -/
theorem leakDemo_stages : towersStage (spawnPhase leakDemo) = leakDemo := rfl

/-- C5 witness: a live enemy one cell from the end of the generated path
leaks in the engine loop, costing one life with the enemy dropped. -/
theorem leak_reward_spec_witness :
    (movePhase leakDemo.path [leakEnemy] 20 false "").1 = [] ∧
    (movePhase leakDemo.path [leakEnemy] 20 false "").2.1 = 20 - 1 :=
  leak_reward_spec.2.1 leakDemo.path leakEnemy 20 false ""
    (by decide) leakEnemy_leaks

/-- C5 counterexample: a basic enemy (reward 20) one cell from the path end
leaks during the next engine tick of a fresh game — the defender drops from
20 to 19 lives and the enemy is removed, yet the attacker's resources stay at
300 and the attacker's score at 0: the award is 0, not between half (10) and
the full reward (20), refuting the claim on the engine code. -/
theorem leak_reward_cex :
    (updateGameState leakDemo).lives = 19 ∧
    (updateGameState leakDemo).enemies = [] ∧
    (updateGameState leakDemo).resources.gemini = 300 ∧
    (updateGameState leakDemo).score.gemini = 0 ∧
    (leakDemo.enemies.getD 0 default).reward = 20 := by
  have hmp := movePhase_single_leak leakDemo.path leakEnemy 20 false ""
    (by decide) leakEnemy_leaks
  refine ⟨?_, ?_, (updateGameState_gemini leakDemo rfl).1.trans rfl,
    (updateGameState_gemini leakDemo rfl).2.trans rfl, by decide⟩
  · rw [updateGameState_eq leakDemo rfl, (victoryStage_frame _).2.1]
    show (movePhase (towersStage (spawnPhase leakDemo)).path
        (towersStage (spawnPhase leakDemo)).enemies
        (towersStage (spawnPhase leakDemo)).lives
        (towersStage (spawnPhase leakDemo)).gameOver
        (towersStage (spawnPhase leakDemo)).winner).2.1 = 19
    rw [leakDemo_stages, show leakDemo.enemies = [leakEnemy] from rfl,
      show leakDemo.lives = 20 from rfl, show leakDemo.gameOver = false from rfl,
      show leakDemo.winner = "" from rfl, hmp.2]
    norm_num
  · rw [updateGameState_eq leakDemo rfl, (victoryStage_frame _).1]
    show (movePhase (towersStage (spawnPhase leakDemo)).path
        (towersStage (spawnPhase leakDemo)).enemies
        (towersStage (spawnPhase leakDemo)).lives
        (towersStage (spawnPhase leakDemo)).gameOver
        (towersStage (spawnPhase leakDemo)).winner).1 = []
    rw [leakDemo_stages, show leakDemo.enemies = [leakEnemy] from rfl,
      show leakDemo.lives = 20 from rfl, show leakDemo.gameOver = false from rfl,
      show leakDemo.winner = "" from rfl]
    exact hmp.1

/-- The leak test holds for the fast demo enemy: its accumulated distance
0 + 2 would buy two cells, but only one remains (`min ⌊2⌋ 1 = 1`), which
reaches the final index. -/
theorem speedEnemy_leaks : leaksB speedDemo.path speedEnemy = true := by
  rw [leaksB_iff _ _ (by norm_num [speedEnemy, newEnemy])]
  have hd : speedEnemy.distanceMoved = 0 := rfl
  have hsp : speedEnemy.speed = 2 := rfl
  have hpi : speedEnemy.pathIndex = 37 := rfl
  have hlen : speedDemo.path.length = 39 := by decide
  unfold moveSteps
  rw [hd, hsp, hpi, hlen]
  norm_num

/-- The first two tick stages are the identity on `speedDemo` (empty wave
queue, no towers). -/
theorem speedDemo_stages : towersStage (spawnPhase speedDemo) = speedDemo := rfl

/-- C4: each tick moves every still-alive enemy by first adding `Speed` to
`DistanceMoved` and then advancing whole path cells while a unit of distance
remains and the final index is not reached — in closed form the index grows
by `min ⌊DistanceMoved + Speed⌋ (lastIndex − PathIndex)` (clamped at 0) and
the distance drops by the same amount, so speeds above 1 advance several
cells in one tick; the enemy phase keeps exactly the alive non-leaking
enemies (moved) and charges one defender life per alive leaker.  In
particular a fast enemy (speed 2.0) one cell from the path end reaches the
final index within one tick of a fresh game and is removed with a life
decrement. -/
theorem enemy_movement_spec :
    (∀ (path : List Position) (e : Enemy), 0 ≤ e.pathIndex →
      (moveEnemy path e).pathIndex =
          e.pathIndex + moveSteps path e.pathIndex (e.distanceMoved + e.speed) ∧
      (moveEnemy path e).distanceMoved =
          e.distanceMoved + e.speed -
            (moveSteps path e.pathIndex (e.distanceMoved + e.speed) : ℚ)) ∧
    (∀ (path : List Position) (es : List Enemy) (l : Int) (go : Bool) (w : String),
      (movePhase path es l go w).1 =
        (es.filter fun e => !(e.health ≤ 0 : Bool) && !(leaksB path e)).map (moveEnemy path) ∧
      (movePhase path es l go w).2.1 =
        l - ((es.filter fun e => !(e.health ≤ 0 : Bool) && leaksB path e).length : Int)) ∧
    speedEnemy.speed = 2 ∧
    speedEnemy.pathIndex = (speedDemo.path.length : Int) - 2 ∧
    (updateGameState speedDemo).enemies = [] ∧
    (updateGameState speedDemo).lives = speedDemo.lives - 1 := by
  have hmp := movePhase_single_leak speedDemo.path speedEnemy 20 false ""
    (by decide) speedEnemy_leaks
  refine ⟨moveEnemy_closed, fun path es l go w => movePhase_spec path es l go w,
    rfl, by decide, ?_, ?_⟩
  · rw [updateGameState_eq speedDemo rfl, (victoryStage_frame _).1]
    show (movePhase (towersStage (spawnPhase speedDemo)).path
        (towersStage (spawnPhase speedDemo)).enemies
        (towersStage (spawnPhase speedDemo)).lives
        (towersStage (spawnPhase speedDemo)).gameOver
        (towersStage (spawnPhase speedDemo)).winner).1 = []
    rw [speedDemo_stages, show speedDemo.enemies = [speedEnemy] from rfl,
      show speedDemo.lives = 20 from rfl, show speedDemo.gameOver = false from rfl,
      show speedDemo.winner = "" from rfl]
    exact hmp.1
  · rw [updateGameState_eq speedDemo rfl, (victoryStage_frame _).2.1]
    show (movePhase (towersStage (spawnPhase speedDemo)).path
        (towersStage (spawnPhase speedDemo)).enemies
        (towersStage (spawnPhase speedDemo)).lives
        (towersStage (spawnPhase speedDemo)).gameOver
        (towersStage (spawnPhase speedDemo)).winner).2.1 = speedDemo.lives - 1
    rw [speedDemo_stages, show speedDemo.enemies = [speedEnemy] from rfl,
      show speedDemo.lives = 20 from rfl, show speedDemo.gameOver = false from rfl,
      show speedDemo.winner = "" from rfl]
    exact hmp.2

/-- C2: `Attack` is a no-op (empty result, enemies and cooldown untouched)
when no enemy lies within Euclidean distance `Range`; otherwise the cooldown
resets to `MaxCD` regardless of how many targets were hit, the number of hit
targets is `min 3` (splash) or exactly 1 (any other kind) of the in-range
count, every hit index is an in-range enemy, and each hit enemy loses exactly
`Damage` health (possibly going negative) while the others are untouched.
The spec scenario: a basic tower (damage 15, range 5) with one enemy at
distance 3 and health 100 leaves it at health 85 with the tower at its
configured max cooldown. -/
theorem tower_attack_spec :
    (∀ (t : Tower) (es : List Enemy),
      ((∀ e ∈ es, inRangeB t e = false) → attack t es = ⟨es, [], t⟩) ∧
      ((∃ e ∈ es, inRangeB t e = true) →
        (attack t es).tower = { t with cooldown := t.maxCD } ∧
        (attack t es).hit.length =
          min (if t.towerType = "splash" then 3 else 1)
            (es.countP fun e => inRangeB t e) ∧
        (∀ i ∈ (attack t es).hit,
          i < es.length ∧ inRangeB t (es.getD i default) = true) ∧
        (∀ i, i < es.length →
          (attack t es).enemies.getD i default =
            if (attack t es).hit.contains i then
              { es.getD i default with
                health := (es.getD i default).health - t.damage }
            else es.getD i default))) ∧
    (attack (newTower 0 0 "basic") [newEnemy 3 0 "basic"]).enemies =
        [{ newEnemy 3 0 "basic" with health := 85 }] ∧
    (attack (newTower 0 0 "basic") [newEnemy 3 0 "basic"]).tower.cooldown = 5 := by
  refine ⟨?_, by decide, by decide⟩
  intro t es
  constructor
  · intro h
    unfold attack
    rw [attackTargets_nil_of t es 0 h]
  · intro h
    have hlen : 0 < (attackTargets t es 0).length := by
      rw [attackTargets_length]
      obtain ⟨e, he, hr⟩ := h
      exact List.countP_pos.mpr ⟨e, he, by simpa using hr⟩
    cases hts : attackTargets t es 0 with
    | nil => rw [hts] at hlen; simp at hlen
    | cons c xs =>
        have hatk : attack t es =
            ⟨applyDamage (((exchangeSort (c :: xs)).take
                  (if t.towerType = "splash" then min 3 (exchangeSort (c :: xs)).length
                   else 1)).map Prod.snd) t.damage es 0,
              ((exchangeSort (c :: xs)).take
                  (if t.towerType = "splash" then min 3 (exchangeSort (c :: xs)).length
                   else 1)).map Prod.snd,
              { t with cooldown := t.maxCD }⟩ := by
          unfold attack
          rw [hts]
        have hslen : (exchangeSort (c :: xs)).length = (c :: xs).length :=
          (exchangeSort_perm _).length_eq
        have hcount : (c :: xs).length = es.countP fun e => inRangeB t e := by
          rw [← hts, attackTargets_length]
        have hcons : (c :: xs).length = xs.length + 1 := rfl
        refine ⟨by rw [hatk], ?_, ?_, ?_⟩
        · rw [hatk]
          show (((exchangeSort (c :: xs)).take _).map Prod.snd).length = _
          rw [List.length_map, List.length_take]
          split_ifs with hsp <;> omega
        · rw [hatk]
          intro i hi
          obtain ⟨⟨k, j⟩, hmem, hj⟩ := List.mem_map.mp hi
          have hji : j = i := hj
          subst hji
          have hmem2 : (k, j) ∈ exchangeSort (c :: xs) := List.take_subset _ _ hmem
          have hmem3 : (k, j) ∈ c :: xs := (exchangeSort_perm _).subset hmem2
          have hmem4 : (k, j) ∈ attackTargets t es 0 := by rw [hts]; exact hmem3
          have hprops := attackTargets_mem t es 0 (k, j) hmem4
          exact ⟨by simpa using hprops.2.1, by simpa using hprops.2.2.1⟩
        · intro i hi
          rw [hatk]
          have := applyDamage_health
            (((exchangeSort (c :: xs)).take
                (if t.towerType = "splash" then min 3 (exchangeSort (c :: xs)).length
                 else 1)).map Prod.snd) t.damage es 0 i hi
          simpa using this

/-- C2 witness: the attack facts at concrete inputs — an empty field is a
no-op, and the scenario tower's cooldown resets on a hit. -/
theorem tower_attack_spec_witness :
    attack (newTower 0 0 "basic") [] = ⟨[], [], newTower 0 0 "basic"⟩ ∧
    (attack (newTower 0 0 "basic") [newEnemy 3 0 "basic"]).tower =
      { newTower 0 0 "basic" with cooldown := (newTower 0 0 "basic").maxCD } :=
  ⟨(tower_attack_spec.1 (newTower 0 0 "basic") []).1 (by simp),
    ((tower_attack_spec.1 (newTower 0 0 "basic") [newEnemy 3 0 "basic"]).2
      ⟨newEnemy 3 0 "basic", by simp, by decide⟩).1⟩

/-- C3 (amended): `Attack` ranks the in-range enemies by an ascending
exchange sort over the single signed sort key (distance for `nearest`,
negated health for `strongest`, negated speed for `fastest`): the resulting
order is ascending in the key and a permutation of the collected targets, and
the *first*-ranked target is always the first-enumerated among the
minimal-key in-range enemies (so single-target towers damage the
first-enumerated top target).  The sort is, however, NOT stable: enemies with
equal sort keys may be reordered, and a splash tower's three targets may skip
an earlier-enumerated tied enemy in favour of a later one
(`attack_stability_cex`). -/
theorem attack_ranking_spec :
    ∀ (t : Tower) (es : List Enemy),
      ((exchangeSort (attackTargets t es 0)).map Prod.fst).Sorted (· ≤ ·) ∧
      (exchangeSort (attackTargets t es 0)).Perm (attackTargets t es 0) ∧
      ∀ hd, (exchangeSort (attackTargets t es 0)).head? = some hd →
        hd ∈ attackTargets t es 0 ∧
        ∀ a ∈ attackTargets t es 0, hd.1 ≤ a.1 ∧ (a.1 = hd.1 → hd.2 ≤ a.2) := by
  intro t es
  refine ⟨exchangeSort_sorted _, exchangeSort_perm _, ?_⟩
  intro hd hhd
  cases hts : attackTargets t es 0 with
  | nil =>
      rw [hts] at hhd
      simp [exchangeSort, exchangeSortFuel] at hhd
  | cons c xs =>
      rw [hts, exchangeSort_head] at hhd
      have hhd2 : (selectPass c xs).1 = hd := Option.some.inj hhd
      subst hhd2
      have hinc : (c :: xs).Pairwise (fun a b => a.2 < b.2) := by
        rw [← hts]; exact attackTargets_idx_mono t es 0
      constructor
      · exact (selectPass_perm xs c).subset (List.mem_cons_self _ _)
      · intro a ha
        exact selectPass_first xs c hinc a ha

/-- C3 witness: the ranking facts at a single-target field: the sole
in-range enemy is also the first-ranked one. -/
theorem attack_ranking_spec_witness :
    (sortKey (newTower 0 0 "basic") (newEnemy 0 1 "basic"), 0) ∈
        attackTargets (newTower 0 0 "basic") [newEnemy 0 1 "basic"] 0 ∧
    ∀ a ∈ attackTargets (newTower 0 0 "basic") [newEnemy 0 1 "basic"] 0,
      (sortKey (newTower 0 0 "basic") (newEnemy 0 1 "basic"), 0).1 ≤ a.1 ∧
        (a.1 = (sortKey (newTower 0 0 "basic") (newEnemy 0 1 "basic"), 0).1 →
          (sortKey (newTower 0 0 "basic") (newEnemy 0 1 "basic"), 0).2 ≤ a.2) :=
  (attack_ranking_spec (newTower 0 0 "basic") [newEnemy 0 1 "basic"]).2.2
    (sortKey (newTower 0 0 "basic") (newEnemy 0 1 "basic"), 0) rfl

/-- C3 counterexample: the double-loop sort of `Attack` is not stable.  A
splash tower at (0,0) against enemies at (0,0), (0,1), (1,0), (0,0) — sort
keys 0, 1, 1, 0 — damages indices 0, 3 and 2: of the two enemies tied at
key 1, the later-enumerated index 2 is damaged (health 90) while the
earlier-enumerated index 1 keeps health 100, refuting both "equal sort keys
keep their original enumeration order" and "the damaged targets are always
the first-enumerated among equally-ranked in-range enemies". -/
theorem attack_stability_cex :
    sortKey (newTower 0 0 "splash") (newEnemy 0 1 "basic") =
        sortKey (newTower 0 0 "splash") (newEnemy 1 0 "basic") ∧
    inRangeB (newTower 0 0 "splash") (newEnemy 0 1 "basic") = true ∧
    inRangeB (newTower 0 0 "splash") (newEnemy 1 0 "basic") = true ∧
    (attack (newTower 0 0 "splash")
        [newEnemy 0 0 "basic", newEnemy 0 1 "basic",
         newEnemy 1 0 "basic", newEnemy 0 0 "basic"]).hit = [0, 3, 2] ∧
    ((attack (newTower 0 0 "splash")
        [newEnemy 0 0 "basic", newEnemy 0 1 "basic",
         newEnemy 1 0 "basic", newEnemy 0 0 "basic"]).enemies.getD 1 default).health = 100 ∧
    ((attack (newTower 0 0 "splash")
        [newEnemy 0 0 "basic", newEnemy 0 1 "basic",
         newEnemy 1 0 "basic", newEnemy 0 0 "basic"]).enemies.getD 2 default).health = 90 := by
  decide

/-- C4 witness: the closed form applied to the fast demo enemy on the
generated path. -/
theorem enemy_movement_spec_witness :
    (moveEnemy speedDemo.path speedEnemy).pathIndex =
        speedEnemy.pathIndex +
          moveSteps speedDemo.path speedEnemy.pathIndex
            (speedEnemy.distanceMoved + speedEnemy.speed) ∧
    (moveEnemy speedDemo.path speedEnemy).distanceMoved =
        speedEnemy.distanceMoved + speedEnemy.speed -
          (moveSteps speedDemo.path speedEnemy.pathIndex
            (speedEnemy.distanceMoved + speedEnemy.speed) : ℚ) :=
  enemy_movement_spec.1 speedDemo.path speedEnemy (by decide)

end TD
